import Mathlib

/-!
Verification of the CQL evaluation engine of `fhir_cql`
(`src/fhir_cql/engine/cql/visitor.py` and `src/fhir_cql/engine/cql/types.py`),
as a shallow embedding in Lean 4.

The CQL runtime represents values as plain Python objects: `None` (CQL Null),
`bool`, `int`, `Decimal` (CQL Decimal; `float` data values are merged into the
same constructor), `str`, `Quantity` (engine/types.py), `CQLCode`,
`CQLInterval` and `list` (engine/cql/types.py).  We model this value space by
the inductive type `Value` below, and Python's dynamically dispatched
comparison operators (`==`, `<`, `<=`) by the functions `pyEq`, `pyLt`, `pyLe`:
a `none` result of `pyLt`/`pyLe` models the `TypeError` Python raises on
operands that are not mutually orderable.  The CQL types the frozen claims do
not exercise (`Date`, `Time`, `CQLConcept`, `CQLTuple`, `CQLRatio`) are not
part of the model.
-/

/-- Embeds `Quantity` from `engine/types.py`: a `Decimal` value and a unit
string.  Decimals are modelled by `Rat`. -/
structure Quantity where
  value : Rat
  unit : String
deriving Repr, DecidableEq

/-- Embeds `CQLCode` from `engine/cql/types.py`: code, system, and optional
display/version. -/
structure CQLCode where
  code : String
  system : String
  display : Option String := none
  version : Option String := none
deriving Repr, DecidableEq

/-- The runtime value space of the evaluator (see module comment).  The
`interval` constructor carries the four `CQLInterval` fields inline because
the bounds are themselves values. -/
inductive Value where
  | null
  | bool (b : Bool)
  | int (n : Int)
  | dec (q : Rat)
  | str (s : String)
  | quantity (q : Quantity)
  | code (c : CQLCode)
  | interval (low high : Option Value) (low_closed high_closed : Bool)
  | list (xs : List Value)

/-- Embeds `CQLInterval` from `engine/cql/types.py` (its four pydantic
fields). -/
structure CQLInterval where
  low : Option Value
  high : Option Value
  low_closed : Bool := true
  high_closed : Bool := true

/-- Repack the inline fields of a `Value.interval` as a `CQLInterval`. -/
def Value.ofInterval (i : CQLInterval) : Value :=
  .interval i.low i.high i.low_closed i.high_closed

/-- Python `value is None`. -/
def Value.isNull : Value → Bool
  | .null => true
  | _ => false

/-- Python `int(b)` for a `bool`. -/
def boolInt (b : Bool) : Int := if b then 1 else 0

/-- The numeric content of a value, when Python treats it as a number
(`bool` is a subclass of `int` in Python, so `True` counts as `1`). -/
def numCoe : Value → Option Rat
  | .bool b => some ((boolInt b : Int) : Rat)
  | .int n => some (n : Rat)
  | .dec q => some q
  | _ => none

/-- Python `<` on characters of a string: code-point comparison. -/
def charListLt : List Char → List Char → Bool
  | [], [] => false
  | [], _ :: _ => true
  | _ :: _, [] => false
  | c :: cs, d :: ds => if c = d then charListLt cs ds else decide (c < d)

/-- Python `<` on strings: lexicographic comparison of code points. -/
def strLt (a b : String) : Bool := charListLt a.toList b.toList

/-- Python `<=` on strings: lexicographic; a common prefix is `<=`. -/
def charListLe : List Char → List Char → Bool
  | [], _ => true
  | _ :: _, [] => false
  | c :: cs, d :: ds => if c = d then charListLe cs ds else decide (c < d)

/-- Python `<=` on strings. -/
def strLe (a b : String) : Bool := charListLe a.toList b.toList

mutual

/-- Python `==` on runtime values (total; `==` never raises for these types).
Numeric values compare by value across `bool`/`int`/`Decimal`
(`True == 1 == Decimal(1)`), `Quantity.__eq__` compares value and unit,
`CQLCode.__eq__` compares code and system only, `CQLInterval.__eq__` compares
both bounds (with Python `==`, where `None == None` is `True`) and both
closedness flags, and lists compare elementwise.  Values of unrelated types
compare unequal. -/
def pyEq : Value → Value → Bool
  | .null, .null => true
  | .bool a, .bool b => a == b
  | .bool a, .int m => boolInt a == m
  | .bool a, .dec q => ((boolInt a : Int) : Rat) == q
  | .int n, .bool b => n == boolInt b
  | .int n, .int m => n == m
  | .int n, .dec q => ((n : Int) : Rat) == q
  | .dec p, .bool b => p == ((boolInt b : Int) : Rat)
  | .dec p, .int m => p == ((m : Int) : Rat)
  | .dec p, .dec q => p == q
  | .str a, .str b => a == b
  | .quantity q1, .quantity q2 => q1.value == q2.value && q1.unit == q2.unit
  | .code c1, .code c2 => c1.code == c2.code && c1.system == c2.system
  | .interval lo hi lc hc, .interval lo' hi' lc' hc' =>
      pyEqOpt lo lo' && pyEqOpt hi hi' && lc == lc' && hc == hc'
  | .list xs, .list ys => pyEqList xs ys
  | _, _ => false

/-- Python `==` on optional values (interval bounds): `None == None` is
`True`, `None == x` is `False`. -/
def pyEqOpt : Option Value → Option Value → Bool
  | none, none => true
  | some x, some y => pyEq x y
  | _, _ => false

/-- Python `==` on lists: equal lengths and elementwise equality. -/
def pyEqList : List Value → List Value → Bool
  | [], [] => true
  | x :: xs, y :: ys => pyEq x y && pyEqList xs ys
  | _, _ => false

end

mutual

/-- Python `<` on runtime values; `none` models the `TypeError` Python raises
on operands that do not support mutual ordering (here: anything other than
number/number, string/string or list/list). -/
def pyLt : Value → Value → Option Bool
  | .bool a, .bool b => some (decide ((boolInt a : Rat) < (boolInt b : Rat)))
  | .bool a, .int m => some (decide ((boolInt a : Rat) < (m : Rat)))
  | .bool a, .dec q => some (decide ((boolInt a : Rat) < q))
  | .int n, .bool b => some (decide ((n : Rat) < (boolInt b : Rat)))
  | .int n, .int m => some (decide (n < m))
  | .int n, .dec q => some (decide ((n : Rat) < q))
  | .dec p, .bool b => some (decide (p < (boolInt b : Rat)))
  | .dec p, .int m => some (decide (p < (m : Rat)))
  | .dec p, .dec q => some (decide (p < q))
  | .str a, .str b => some (strLt a b)
  | .list xs, .list ys => pyLtList xs ys
  | _, _ => none

/-- Python `<` on lists: scan for the first elementwise-unequal position and
compare there; if one list is a prefix of the other, the shorter is
smaller. -/
def pyLtList : List Value → List Value → Option Bool
  | [], [] => some false
  | [], _ :: _ => some true
  | _ :: _, [] => some false
  | a :: as, b :: bs => if pyEq a b then pyLtList as bs else pyLt a b

end

mutual

/-- Python `<=` on runtime values; `none` models `TypeError` as in `pyLt`. -/
def pyLe : Value → Value → Option Bool
  | .bool a, .bool b => some (decide ((boolInt a : Rat) ≤ (boolInt b : Rat)))
  | .bool a, .int m => some (decide ((boolInt a : Rat) ≤ (m : Rat)))
  | .bool a, .dec q => some (decide ((boolInt a : Rat) ≤ q))
  | .int n, .bool b => some (decide ((n : Rat) ≤ (boolInt b : Rat)))
  | .int n, .int m => some (decide (n ≤ m))
  | .int n, .dec q => some (decide ((n : Rat) ≤ q))
  | .dec p, .bool b => some (decide (p ≤ (boolInt b : Rat)))
  | .dec p, .int m => some (decide (p ≤ (m : Rat)))
  | .dec p, .dec q => some (decide (p ≤ q))
  | .str a, .str b => some (strLe a b)
  | .list xs, .list ys => pyLeList xs ys
  | _, _ => none

/-- Python `<=` on lists: first unequal position decides with `<=`; a prefix
is `<=` the longer list. -/
def pyLeList : List Value → List Value → Option Bool
  | [], _ => some true
  | _ :: _, [] => some false
  | a :: as, b :: bs => if pyEq a b then pyLeList as bs else pyLe a b

end

/-- Python `x in xs` for a list `xs` (membership by `==`). -/
def pyMem (x : Value) (xs : List Value) : Bool :=
  xs.any (fun y => pyEq x y)

example : pyEq (.int 1) (.dec 1) = true := by decide
example : pyEq (.bool true) (.int 1) = true := by decide
example : pyEq (.list [.int 1]) (.list [.dec 1]) = true := by decide
example : pyLt (.int 1) (.str "a") = none := by decide
example : pyLt (.list [.int 1, .str "a"]) (.list [.int 1, .str "b"]) = some true := by decide
example : pyMem (.int 1) [.int 3, .dec 1] = true := by decide
example : pyLe (.str "ab") (.str "b") = some true := by decide

/-! ## Python `str()` rendering

`visitAdditionExpressionTerm` uses `str(operand)` for `&` concatenation.  For
`str`, `int` and `bool` operands the rendering below is exactly CPython's; for
the remaining constructors it follows the `__str__` methods of
`engine/types.py` / `engine/cql/types.py` up to the decimal-notation details
of `Decimal.__str__`, which `Rat` cannot represent (trailing zeros). -/

mutual

/-- Python `str(v)` (see section comment). -/
def pyStr : Value → String
  | .null => "None"
  | .bool b => if b then "True" else "False"
  | .int n => toString n
  | .dec q => toString q
  | .str s => s
  | .quantity q => toString q.value ++ " '" ++ q.unit ++ "'"
  | .code c =>
      match c.display with
      | some d => "Code '" ++ c.code ++ "' from " ++ c.system ++ " display '" ++ d ++ "'"
      | none => "Code '" ++ c.code ++ "' from " ++ c.system
  | .interval lo hi lc hc =>
      "Interval" ++ (if lc then "[" else "(") ++ pyStrOpt lo ++ ", " ++
        pyStrOpt hi ++ (if hc then "]" else ")")
  | .list xs => "[" ++ pyStrList xs ++ "]"

/-- Bound rendering in `CQLInterval.__str__`: `None` renders as empty. -/
def pyStrOpt : Option Value → String
  | none => ""
  | some v => pyStr v

/-- Comma-separated element rendering. -/
def pyStrList : List Value → String
  | [] => ""
  | [x] => pyStr x
  | x :: xs => pyStr x ++ ", " ++ pyStrList xs

end

/-! ## Arithmetic helpers (visitor.py `_add` .. `_modulo`)

Each helper returns `Except String Value`: `.error` models a raised Python
exception, `.ok .null` models a returned `None`. -/

/-- Python `left + right` on runtime values: numeric addition (any `Decimal`
operand gives a `Decimal`, otherwise `int`), string and list concatenation;
anything else raises `TypeError`.  Used by `_add` after its Quantity
branch. -/
def pyAdd : Value → Value → Except String Value
  | .int a, .int b => .ok (.int (a + b))
  | .int a, .bool b => .ok (.int (a + boolInt b))
  | .bool a, .int b => .ok (.int (boolInt a + b))
  | .bool a, .bool b => .ok (.int (boolInt a + boolInt b))
  | .dec a, .dec b => .ok (.dec (a + b))
  | .dec a, .int b => .ok (.dec (a + (b : Rat)))
  | .int a, .dec b => .ok (.dec ((a : Rat) + b))
  | .dec a, .bool b => .ok (.dec (a + ((boolInt b : Int) : Rat)))
  | .bool a, .dec b => .ok (.dec (((boolInt a : Int) : Rat) + b))
  | .str a, .str b => .ok (.str (a ++ b))
  | .list xs, .list ys => .ok (.list (xs ++ ys))
  | _, _ => .error "TypeError"

/-- Python `left - right`: numeric only; anything else raises `TypeError`. -/
def pySub : Value → Value → Except String Value
  | .int a, .int b => .ok (.int (a - b))
  | .int a, .bool b => .ok (.int (a - boolInt b))
  | .bool a, .int b => .ok (.int (boolInt a - b))
  | .bool a, .bool b => .ok (.int (boolInt a - boolInt b))
  | .dec a, .dec b => .ok (.dec (a - b))
  | .dec a, .int b => .ok (.dec (a - (b : Rat)))
  | .int a, .dec b => .ok (.dec ((a : Rat) - b))
  | .dec a, .bool b => .ok (.dec (a - ((boolInt b : Int) : Rat)))
  | .bool a, .dec b => .ok (.dec (((boolInt a : Int) : Rat) - b))
  | _, _ => .error "TypeError"

/-- Python `left * right`: numeric multiplication, or sequence repetition for
`str`/`list` with an `int`-like count; anything else raises `TypeError`. -/
def pyMul : Value → Value → Except String Value
  | .int a, .int b => .ok (.int (a * b))
  | .int a, .bool b => .ok (.int (a * boolInt b))
  | .bool a, .int b => .ok (.int (boolInt a * b))
  | .bool a, .bool b => .ok (.int (boolInt a * boolInt b))
  | .dec a, .dec b => .ok (.dec (a * b))
  | .dec a, .int b => .ok (.dec (a * (b : Rat)))
  | .int a, .dec b => .ok (.dec ((a : Rat) * b))
  | .dec a, .bool b => .ok (.dec (a * ((boolInt b : Int) : Rat)))
  | .bool a, .dec b => .ok (.dec (((boolInt a : Int) : Rat) * b))
  | .str s, .int n => .ok (.str (String.join (List.replicate n.toNat s)))
  | .int n, .str s => .ok (.str (String.join (List.replicate n.toNat s)))
  | .list xs, .int n => .ok (.list (List.flatten (List.replicate n.toNat xs)))
  | .int n, .list xs => .ok (.list (List.flatten (List.replicate n.toNat xs)))
  | _, _ => .error "TypeError"

/-- Truncation toward zero, as in `Decimal.__floordiv__` and `int()`. -/
def ratTrunc (q : Rat) : Int := if 0 ≤ q then q.floor else q.ceil

/-- Python `right == 0` (the literal `0` is an `int`). -/
def pyEqZero (r : Value) : Bool := pyEq r (.int 0)

/-- Embeds `_add` (visitor.py): Quantity + Quantity requires equal units
(mismatch yields `None`); all other operand shapes fall through to Python
`+`. -/
def addValues (l r : Value) : Except String Value :=
  match l, r with
  | .quantity q1, .quantity q2 =>
      if q1.unit = q2.unit then .ok (.quantity ⟨q1.value + q2.value, q1.unit⟩)
      else .ok .null
  | _, _ => pyAdd l r

/-- Embeds `_subtract` (visitor.py): Quantity - Quantity requires equal
units; otherwise Python `-`. -/
def subtractValues (l r : Value) : Except String Value :=
  match l, r with
  | .quantity q1, .quantity q2 =>
      if q1.unit = q2.unit then .ok (.quantity ⟨q1.value - q2.value, q1.unit⟩)
      else .ok .null
  | _, _ => pySub l r

/-- Embeds `_multiply` (visitor.py): Quantity times an `int`/`Decimal` scalar
scales the value (a `bool` scalar reaches `Decimal(str(bool))`, which raises);
otherwise Python `*`. -/
def multiplyValues (l r : Value) : Except String Value :=
  match l, r with
  | .quantity q, .int n => .ok (.quantity ⟨q.value * (n : Rat), q.unit⟩)
  | .quantity q, .dec d => .ok (.quantity ⟨q.value * d, q.unit⟩)
  | .quantity _, .bool _ => .error "decimal.InvalidOperation"
  | .int n, .quantity q => .ok (.quantity ⟨q.value * (n : Rat), q.unit⟩)
  | .dec d, .quantity q => .ok (.quantity ⟨q.value * d, q.unit⟩)
  | .bool _, .quantity _ => .error "decimal.InvalidOperation"
  | _, _ => pyMul l r

/-- Embeds `_divide` (visitor.py): `right == 0` yields `None`; a Quantity
divided by an `int`/`Decimal` scalar scales the value; `int / int` is exact
`Decimal` division; otherwise Python `/` (numeric only). -/
def divideValues (l r : Value) : Except String Value :=
  if pyEqZero r then .ok .null
  else
    match l, r with
    | .quantity q, .int n => .ok (.quantity ⟨q.value / (n : Rat), q.unit⟩)
    | .quantity q, .dec d => .ok (.quantity ⟨q.value / d, q.unit⟩)
    | .quantity _, .bool _ => .error "decimal.InvalidOperation"
    | .int a, .int b => .ok (.dec ((a : Rat) / (b : Rat)))
    | .dec a, .dec b => .ok (.dec (a / b))
    | .dec a, .int b => .ok (.dec (a / (b : Rat)))
    | .int a, .dec b => .ok (.dec ((a : Rat) / b))
    | .dec a, .bool b => .ok (.dec (a / ((boolInt b : Int) : Rat)))
    | .bool a, .dec b => .ok (.dec (((boolInt a : Int) : Rat) / b))
    | .bool a, .bool b => .ok (.dec (((boolInt a : Int) : Rat) / ((boolInt b : Int) : Rat)))
    | .bool a, .int b => .ok (.dec (((boolInt a : Int) : Rat) / (b : Rat)))
    | .int a, .bool b => .ok (.dec ((a : Rat) / ((boolInt b : Int) : Rat)))
    | _, _ => .error "TypeError"

/-- Embeds `_truncated_divide` (visitor.py): `right == 0` yields `None`;
`int(left // right)` — floor division for `int` operands, truncated division
(`Decimal.__floordiv__`) when a `Decimal` is involved. -/
def truncatedDivide (l r : Value) : Except String Value :=
  if pyEqZero r then .ok .null
  else
    match l, r with
    | .int a, .int b => .ok (.int (Int.fdiv a b))
    | .int a, .bool b => .ok (.int (Int.fdiv a (boolInt b)))
    | .bool a, .int b => .ok (.int (Int.fdiv (boolInt a) b))
    | .bool a, .bool b => .ok (.int (Int.fdiv (boolInt a) (boolInt b)))
    | .dec a, .dec b => .ok (.int (ratTrunc (a / b)))
    | .dec a, .int b => .ok (.int (ratTrunc (a / (b : Rat))))
    | .int a, .dec b => .ok (.int (ratTrunc ((a : Rat) / b)))
    | .dec a, .bool b => .ok (.int (ratTrunc (a / ((boolInt b : Int) : Rat))))
    | .bool a, .dec b => .ok (.int (ratTrunc (((boolInt a : Int) : Rat) / b)))
    | _, _ => .error "TypeError"

/-- Embeds `_modulo` (visitor.py): `right == 0` yields `None`; Python `%` —
floor-remainder for `int` operands, truncated remainder
(`Decimal.__mod__`) when a `Decimal` is involved. -/
def moduloValues (l r : Value) : Except String Value :=
  if pyEqZero r then .ok .null
  else
    match l, r with
    | .int a, .int b => .ok (.int (Int.fmod a b))
    | .int a, .bool b => .ok (.int (Int.fmod a (boolInt b)))
    | .bool a, .int b => .ok (.int (Int.fmod (boolInt a) b))
    | .bool a, .bool b => .ok (.int (Int.fmod (boolInt a) (boolInt b)))
    | .dec a, .dec b => .ok (.dec (a - b * (ratTrunc (a / b) : Rat)))
    | .dec a, .int b => .ok (.dec (a - (b : Rat) * (ratTrunc (a / (b : Rat)) : Rat)))
    | .int a, .dec b => .ok (.dec ((a : Rat) - b * (ratTrunc ((a : Rat) / b) : Rat)))
    | _, _ => .error "TypeError"

/-! ## Arithmetic and comparison expression visitors -/

/-- Embeds `visitAdditionExpressionTerm` (visitor.py:496-517), applied to the
two already-evaluated operand values and the operator token text.  `&` treats
`None` as the empty string and concatenates `str(...)` of the operands; for
`+`/`-` a `None` operand yields `None` before the helpers run. -/
def visitAdditionExpressionTerm (left right : Value) (op : String) : Except String Value :=
  if op = "&" then
    .ok (.str ((if left.isNull then "" else pyStr left) ++
               (if right.isNull then "" else pyStr right)))
  else if left.isNull || right.isNull then .ok .null
  else if op = "+" then addValues left right
  else if op = "-" then subtractValues left right
  else .ok .null

/-- Embeds `visitMultiplicationExpressionTerm` (visitor.py:519-537): a `None`
operand yields `None`; otherwise dispatch to `_multiply`, `_divide`,
`_truncated_divide` or `_modulo` by operator token. -/
def visitMultiplicationExpressionTerm (left right : Value) (op : String) : Except String Value :=
  if left.isNull || right.isNull then .ok .null
  else if op = "*" then multiplyValues left right
  else if op = "/" then divideValues left right
  else if op = "div" then truncatedDivide left right
  else if op = "mod" then moduloValues left right
  else .ok .null

/-- Lift a Python comparison outcome (`none` = `TypeError`) into the
visitor's result. -/
def liftCmp : Option Bool → Except String Value
  | some b => .ok (.bool b)
  | none => .error "TypeError"

/-- Embeds `visitInequalityExpression` (visitor.py:641-659): a `None` operand
yields `None`; otherwise Python `<`, `<=`, `>`, `>=` (where `a > b` and
`a >= b` are the reflected `b < a` / `b <= a` for these value types). -/
def visitInequalityExpression (left right : Value) (op : String) : Except String Value :=
  if left.isNull || right.isNull then .ok .null
  else if op = "<" then liftCmp (pyLt left right)
  else if op = "<=" then liftCmp (pyLe left right)
  else if op = ">" then liftCmp (pyLt right left)
  else if op = ">=" then liftCmp (pyLe right left)
  else .ok .null

/-- Embeds `CQLCode.equivalent` (types.py:52-54): compares code and system
only. -/
def CQLCode.equivalent (a b : CQLCode) : Bool :=
  a.code == b.code && a.system == b.system

/-- Embeds `CQLCode.__eq__` (types.py:38-42) restricted to Code operands:
compares code and system only. -/
def CQLCode.eqMethod (a b : CQLCode) : Bool :=
  a.code == b.code && a.system == b.system

mutual

/-- Embeds `_equals` (visitor.py:1746-1771), returning `none` for a Python
`None` ("not comparable") and `some b` for a `bool`: `None` operands give
`None`; lists of equal length compare elementwise (via Python `all`, where a
`None` element result counts as falsy), unequal length gives `False`;
Quantities require equal units (else `None`) and compare values; intervals
and the fallback use Python `==`; Codes use `CQLCode.equivalent`. -/
def cqlEquals (l r : Value) : Option Bool :=
  match l, r with
  | .null, _ => none
  | _, .null => none
  | .list xs, .list ys =>
      if xs.length = ys.length then some (cqlEqualsAll xs ys) else some false
  | .quantity q1, .quantity q2 =>
      if q1.unit ≠ q2.unit then none else some (q1.value == q2.value)
  | .interval lo hi lc hc, .interval lo' hi' lc' hc' =>
      some (pyEq (.interval lo hi lc hc) (.interval lo' hi' lc' hc'))
  | .code c1, .code c2 => some (CQLCode.equivalent c1 c2)
  | _, _ => some (pyEq l r)

/-- Python `all(self._equals(li, ri) for ...)` over zipped lists: a `none`
(Python `None`) element result is falsy. -/
def cqlEqualsAll : List Value → List Value → Bool
  | x :: xs, y :: ys =>
      (match cqlEquals x y with
       | some true => true
       | _ => false) && cqlEqualsAll xs ys
  | _, _ => true

end

/-- The visitor returns `_equals`'s `bool | None` result as a value. -/
def optBoolValue : Option Bool → Value
  | some b => .bool b
  | none => .null

/-- Embeds `visitEqualityExpression` (visitor.py:624-639): a `None` operand
yields `None`; `=` and `~` both dispatch to `_equals`; `!=` and `!~` negate
the `_equals` result when it is not `None`. -/
def visitEqualityExpression (left right : Value) (op : String) : Except String Value :=
  if left.isNull || right.isNull then .ok .null
  else if op = "=" || op = "~" then .ok (optBoolValue (cqlEquals left right))
  else if op = "!=" || op = "!~" then
    .ok (match cqlEquals left right with
         | some b => .bool (!b)
         | none => .null)
  else .ok .null

example : visitAdditionExpressionTerm (.int 2) (.int 3) "+" = .ok (.int 5) := by rfl
example : visitAdditionExpressionTerm .null (.str "x") "&" = .ok (.str "x") := by rfl
example : visitMultiplicationExpressionTerm (.int 7) (.int 0) "/" = .ok .null := by rfl
example : visitInequalityExpression (.int 2) .null "<" = .ok .null := by rfl
example : visitEqualityExpression (.dec 1) (.int 1) "=" = .ok (.bool true) := by rfl

/-! ## Interval operations (`engine/cql/types.py`) -/

/-- Embeds `CQLInterval.__contains__` (types.py:111-134): a `None` value is
never contained; a present closed (resp. open) low bound rejects
`value < low` (resp. `value <= low`), the high bound symmetrically; the
bound comparisons use Python `<`/`<=` and may raise (`none`). -/
def CQLInterval.containsValue (i : CQLInterval) (value : Value) : Option Bool :=
  if value.isNull then some false
  else
    let lowCheck : Option Bool :=
      match i.low with
      | none => some true
      | some lo =>
          if i.low_closed then (pyLt value lo).map (fun b => !b)
          else (pyLe value lo).map (fun b => !b)
    match lowCheck with
    | none => none
    | some false => some false
    | some true =>
        match i.high with
        | none => some true
        | some hi =>
            if i.high_closed then (pyLt hi value).map (fun b => !b)
            else (pyLe hi value).map (fun b => !b)

/-- Embeds `CQLInterval.meets` (types.py:178-182): `False` when either facing
bound is `None`, otherwise the facing bounds are `==` and have opposite
closedness flags. -/
def CQLInterval.meets (self other : CQLInterval) : Bool :=
  match self.high, other.low with
  | some h, some l => pyEq h l && (self.high_closed != other.low_closed)
  | _, _ => false

/-- Embeds `CQLInterval.overlaps` (types.py:161-176) with Python `<` on the
bounds (`none` = `TypeError`). -/
def CQLInterval.overlapsItv (self other : CQLInterval) : Option Bool :=
  let step1 : Option Bool :=
    match self.high, other.low with
    | some h, some l =>
        match pyLt h l with
        | none => none
        | some true => some false
        | some false =>
            if pyEq h l && !(self.high_closed && other.low_closed) then some false
            else some true
    | _, _ => some true
  match step1 with
  | none => none
  | some false => some false
  | some true =>
      match other.high, self.low with
      | some h, some l =>
          match pyLt h l with
          | none => none
          | some true => some false
          | some false =>
              if pyEq h l && !(other.high_closed && self.low_closed) then some false
              else some true
      | _, _ => some true

/-- Embeds `CQLInterval.includes` (types.py:140-159): for each present bound
of `other`, if it is not contained in `self` the explicit boundary tests may
still accept or reject it. -/
def CQLInterval.includesItv (self other : CQLInterval) : Option Bool :=
  let boundCheck (b : Option Value) (selfBound : Option Value)
      (closedSelf closedOther : Bool) (ltOut : Value → Value → Option Bool) : Option Bool :=
    match b with
    | none => some true
    | some bv =>
        match self.containsValue bv with
        | none => none
        | some true => some true
        | some false =>
            match selfBound with
            | none => some true
            | some sb =>
                match ltOut bv sb with
                | none => none
                | some true => some false
                | some false =>
                    if pyEq bv sb && !closedSelf && closedOther then some false
                    else some true
  match boundCheck other.low self.low self.low_closed other.low_closed pyLt with
  | none => none
  | some false => some false
  | some true =>
      match boundCheck other.high self.high self.high_closed other.high_closed
          (fun a b => pyLt b a) with
      | none => none
      | some false => some false
      | some true => some true

/-! ## Interval timing and membership (`visitor.py`) -/

/-- Whether `sub` is an initial segment of `s` (character lists). -/
def charListStarts : List Char → List Char → Bool
  | [], _ => true
  | _ :: _, [] => false
  | c :: cs, d :: ds => c == d && charListStarts cs ds

/-- Whether `sub` occurs as a contiguous segment of `s` (character lists). -/
def charListContains : List Char → List Char → Bool
  | sub, [] => sub.isEmpty
  | sub, d :: ds => charListStarts sub (d :: ds) || charListContains sub ds

/-- Python `sub in s` on strings. -/
def pyInString (sub s : String) : Bool := charListContains sub.toList s.toList

/-- Python `s.startswith(t)`. -/
def pyStartsWith (s t : String) : Bool := charListStarts t.toList s.toList

/-- ASCII lower-casing of a character (enough for the operator tokens and
function names that reach `.lower()` in the visitor). -/
def charToLower (c : Char) : Char :=
  if 'A' ≤ c && c ≤ 'Z' then Char.ofNat (c.toNat + 32) else c

/-- Python `s.lower()` (ASCII; see `charToLower`). -/
def strToLower (s : String) : String := String.mk (s.toList.map charToLower)

/-- Embeds `_interval_timing` (visitor.py:1189-1217): dispatch on substring
tests of the operator phrase.  Note the phrase test order: `"before" in op`
and `"after" in op` are tested before `"meets" in op`, and the plain `meets`
arm compares `left.high == right.low or left.low == right.high` with Python
`==` on the optional bounds, ignoring closedness. -/
def intervalTiming (left right : CQLInterval) (op : String) : Except String Value :=
  if pyInString "before" op then
    match left.high, right.low with
    | none, _ => .ok .null
    | _, none => .ok .null
    | some h, some l => liftCmp (pyLt h l)
  else if pyInString "after" op then
    match left.low, right.high with
    | none, _ => .ok .null
    | _, none => .ok .null
    | some l, some h => liftCmp (pyLt h l)
  else if pyInString "meets" op then
    .ok (.bool (pyEqOpt left.high right.low || pyEqOpt left.low right.high))
  else if pyInString "overlaps" op then
    match left.overlapsItv right with
    | some b => .ok (.bool b)
    | none => .error "TypeError"
  else if pyInString "starts" op then
    .ok (.bool (pyEqOpt left.low right.low))
  else if pyInString "ends" op then
    .ok (.bool (pyEqOpt left.high right.high))
  else if pyInString "during" op || pyInString "included in" op then
    match right.includesItv left with
    | some b => .ok (.bool b)
    | none => .error "TypeError"
  else if pyInString "includes" op then
    match left.includesItv right with
    | some b => .ok (.bool b)
    | none => .error "TypeError"
  else if pyInString "same" op then
    .ok (.bool (pyEq (.ofInterval left) (.ofInterval right)))
  else .ok .null

/-- Embeds `visitMembershipExpression` (visitor.py:807-824), applied to the
evaluated operands and the lower-cased operator: `in` tests list membership
or interval containment of the left value; `contains` symmetrically; any
other operand shape yields `None`. -/
def visitMembershipExpression (left right : Value) (op : String) : Except String Value :=
  let opLower := strToLower op
  if opLower = "in" then
    match right with
    | .list ys => .ok (.bool (pyMem left ys))
    | .interval lo hi lc hc =>
        match CQLInterval.containsValue ⟨lo, hi, lc, hc⟩ left with
        | some b => .ok (.bool b)
        | none => .error "TypeError"
    | _ => .ok .null
  else if opLower = "contains" then
    match left with
    | .list xs => .ok (.bool (pyMem right xs))
    | .interval lo hi lc hc =>
        match CQLInterval.containsValue ⟨lo, hi, lc, hc⟩ right with
        | some b => .ok (.bool b)
        | none => .error "TypeError"
    | _ => .ok .null
  else .ok .null

example :
    intervalTiming ⟨some (.int 1), some (.int 5), true, true⟩
      ⟨some (.int 6), some (.int 10), true, true⟩ "meets" = .ok (.bool false) := by rfl
example :
    intervalTiming ⟨some (.int 1), some (.int 5), true, true⟩
      ⟨some (.int 5), some (.int 10), true, true⟩ "meets" = .ok (.bool true) := by rfl
example :
    visitMembershipExpression (.int 3) (.interval (some (.int 1)) (some (.int 5)) true true)
      "in" = .ok (.bool true) := by rfl
example :
    visitMembershipExpression .null (.interval none none true true) "in" =
      .ok (.bool false) := by rfl

/-! ## Built-in function dispatch (`_call_builtin_function`, visitor.py:1348-1663)

Only the `singleton`/`singletonFrom` arms are embedded; the elided arms of
the dispatch chain are equality tests of `name_lower = name.lower()` against
other fixed strings (`"count"`, `"exists"`, `"first"`, ...), none of which
equals `"singleton"` or `"singletonfrom"`, so they never fire for the names
considered here.  The chain ends with `return None` ("Function not found").
The arm guarded by `name_lower == "singletonFrom"` delegates to the
`"singleton"` arm in the source; that delegation is inlined here as a shared
helper. -/

/-- The `"singleton"` arm (visitor.py:1502-1510): on a list argument, one
element is returned, zero yields `None`, and more than one raises
`CQLError("Expected single element but found multiple")`; a non-list first
argument is returned as is, no argument yields `None`. -/
def singletonBuiltin (args : List Value) : Except String Value :=
  match args with
  | .list [x] :: _ => .ok x
  | .list [] :: _ => .ok .null
  | .list (_ :: _ :: _) :: _ => .error "Expected single element but found multiple"
  | a :: _ => .ok a
  | [] => .ok .null

/-- Embeds the `singleton`/`singletonFrom` slice of `_call_builtin_function`
(see section comment).  Note that `name_lower` is the `.lower()`-cased name,
so the comparison against the mixed-case literal `"singletonFrom"`
(visitor.py:1556) can never be true. -/
def callBuiltinFunction (name : String) (args : List Value) : Except String Value :=
  let nameLower := strToLower name
  if nameLower = "singleton" then singletonBuiltin args
  else if nameLower = "singletonFrom" then singletonBuiltin args
  else .ok .null

example : callBuiltinFunction "singleton" [.list [.int 1, .int 2]] =
    .error "Expected single element but found multiple" := by rfl
example : callBuiltinFunction "singletonFrom" [.list [.int 1, .int 2]] = .ok .null := by rfl

/-! ## Query return clause (`_apply_return_clause`, visitor.py:998-1029)

The function below is applied to the already-projected row values (the
`returned` list built by the per-row loop) and the raw text
`ctx.getText()` of the return clause node. -/

/-- First-seen-order deduplication by Python `in` (value equality), as in the
`seen` loop of `_apply_return_clause`. -/
def dedupFirstSeen (xs : List Value) : List Value :=
  xs.foldl (fun seen item => if pyMem item seen then seen else seen ++ [item]) []

/-- Embeds the distinct/all logic of `_apply_return_clause`
(visitor.py:1002-1029): `distinct` is true when the lower-cased clause text
starts with `"return distinct"` or `"return all"`; `is_all` is true when
`"all"` occurs anywhere in that text; deduplication runs only when
`distinct and not is_all`. -/
def applyReturnClause (returned : List Value) (ctxText : String) : List Value :=
  let t := strToLower ctxText
  let distinct := pyStartsWith t "return distinct" || pyStartsWith t "return all"
  let isAll := pyInString "all" t
  if distinct && !isAll then dedupFirstSeen returned else returned

example : applyReturnClause [.int 1, .int 1] "return N" = [.int 1, .int 1] := by rfl
example : applyReturnClause [.int 1, .int 1] "returnN" = [.int 1, .int 1] := by rfl
example : applyReturnClause [.int 1, .int 1] "return all N" = [.int 1, .int 1] := by rfl

/-! ## Query sort clause, bare-direction branch (`_apply_sort_clause`, visitor.py:1031-1052)

With no `sortByItem`, a bare direction sorts the projected list itself:
`None` values are filtered out, the rest are passed to Python
`sorted(non_none, reverse=reverse)`, and the `None`s are appended at the end;
a `TypeError` from `sorted` is swallowed and the original list returned.

CPython's `sorted` is a stable comparison sort over `__lt__`.  On a list
(of the value types modelled here) whose elements are not mutually orderable
it raises `TypeError` as soon as an incomparable pair is compared, which for
lists of two or more elements of mixed comparison classes always happens; on
mutually orderable elements it returns the unique stable ordering, which we
realize with a stable insertion sort (`pySortList`).  `reverse=True` reverses
every comparison while keeping stability, i.e. element `a` precedes `b` when
`not (a < b)`. -/

/-- Stable insertion of `x` before the first `y` with `le x y`. -/
def pyInsert (le : Value → Value → Bool) (x : Value) : List Value → List Value
  | [] => [x]
  | y :: ys => if le x y then x :: y :: ys else y :: pyInsert le x ys

/-- Stable insertion sort with respect to `le`. -/
def pySortList (le : Value → Value → Bool) : List Value → List Value
  | [] => []
  | x :: xs => pyInsert le x (pySortList le xs)

/-- Whether `a` may precede `b` in an ascending Python sort: `not (b < a)`. -/
def leAsc (a b : Value) : Bool := !((pyLt b a).getD false)

/-- Whether `a` may precede `b` in a descending (`reverse=True`) Python sort:
`not (a < b)`. -/
def leDesc (a b : Value) : Bool := !((pyLt a b).getD false)

/-- All pairs of elements of `xs` support Python `<`. -/
def mutuallyComparable (xs : List Value) : Bool :=
  xs.all (fun a => xs.all (fun b => (pyLt a b).isSome))

/-- Python `sorted(xs, reverse)` (see section comment): `none` models the
`TypeError` raised on a list of two or more elements that are not mutually
orderable; lists of at most one element are never compared. -/
def pySorted (xs : List Value) (reverse : Bool) : Option (List Value) :=
  if xs.length ≤ 1 || mutuallyComparable xs then
    some (pySortList (if reverse then leDesc else leAsc) xs)
  else none

/-- Embeds the bare-direction branch of `_apply_sort_clause`
(visitor.py:1038-1052), applied to the projected list and the raw direction
token text. -/
def applySortBareDirection (results : List Value) (dirTextRaw : String) : List Value :=
  let dirText := strToLower dirTextRaw
  let reverse := dirText = "desc" || dirText = "descending"
  let nonNone := results.filter (fun r => !r.isNull)
  let noneCount := results.length - nonNone.length
  match pySorted nonNone reverse with
  | some sortedResults => sortedResults ++ List.replicate noneCount Value.null
  | none => results

example : applySortBareDirection [.int 5, .null, .int 2, .int 8, .int 1] "asc" =
    [.int 1, .int 2, .int 5, .int 8, .null] := by rfl
example : applySortBareDirection [.int 5, .null, .int 2] "desc" =
    [.int 5, .int 2, .null] := by rfl
example : applySortBareDirection [.int 5, .str "a", .null] "asc" =
    [.int 5, .str "a", .null] := by rfl

/-! ## Lazy definitions, memoization and recursion detection

`_evaluate_definition` (visitor.py:1294-1317) drives definition evaluation;
the Evaluation Context state it manipulates lives in
`engine/cql/context.py`, which is not part of the sources, so the four
context operations below are modelled from the spec (§3, §4.4).  The
expression language `Expr` is the fragment needed to exercise definition
references: literals, two-element list selectors (`visitListSelector`,
visitor.py:403-409, which evaluates its element expressions left to right),
and bare references to library definitions (`visitMemberInvocation`,
visitor.py:714-738, definition arm).  `evalLog` is proof instrumentation
recording each `self.visit(definition.expression_tree)` call; it carries no
information back into the evaluation. -/

/-- The per-root-call fragment of the Evaluation Context: the memo cache, the
in-progress set, plus the instrumentation log of body evaluations. -/
structure EvalState where
  memo : List (String × Value)
  inProgress : List String
  evalLog : List String

/-- Modelled from the spec: the memo-cache lookup used by
`_evaluate_definition` ("Check cache"); a cached `None` is distinguishable
from a miss, hence the `Option` result of an association lookup. -/
def getCachedDefinition (st : EvalState) (name : String) : Option Value :=
  (st.memo.find? (fun p => p.1 == name)).map (fun p => p.2)

/-- Modelled from the spec: "Before evaluating a definition, its name is
added to an in-progress set; if the name is already in that set, evaluation
fails" — returns whether the acquisition succeeded, plus the updated
state. -/
def startEvaluation (st : EvalState) (name : String) : Bool × EvalState :=
  if name ∈ st.inProgress then (false, st)
  else (true, { st with inProgress := name :: st.inProgress })

/-- Modelled from the spec: removal of the in-progress marker (set
discard). -/
def endEvaluation (st : EvalState) (name : String) : EvalState :=
  { st with inProgress := st.inProgress.filter (fun n => n ≠ name) }

/-- Modelled from the spec: caching an evaluated definition result. -/
def cacheDefinition (st : EvalState) (name : String) (v : Value) : EvalState :=
  { st with memo := (name, v) :: st.memo }

/-- The expression fragment needed for definition references (see section
comment). -/
inductive Expr where
  | lit (v : Value)
  | listSel (a b : Expr)
  | exprRef (name : String)

/-- The recursive tree walk of the visitor for the `Expr` fragment, with a
library `defs` mapping definition names to their expression trees.  `fuel`
models the Python call stack (exhaustion corresponds to the interpreter's
`RecursionError`); every recursive visit consumes one unit.  The `.exprRef`
arm is `_evaluate_definition` (visitor.py:1294-1317) verbatim: cache check,
`start_evaluation` guard raising `CQLError("Recursive definition detected:
...")`, body evaluation and caching inside `try`, `end_evaluation` in
`finally` (hence on the success, error and missing-definition paths
alike). -/
def evalExpr (defs : String → Option Expr) : Nat → EvalState → Expr →
    Except String Value × EvalState
  | 0, st, _ => (.error "maximum recursion depth exceeded", st)
  | Nat.succ fuel, st, e =>
    match e with
    | .lit v => (.ok v, st)
    | .listSel a b =>
        match evalExpr defs fuel st a with
        | (.error msg, st1) => (.error msg, st1)
        | (.ok va, st1) =>
            match evalExpr defs fuel st1 b with
            | (.error msg, st2) => (.error msg, st2)
            | (.ok vb, st2) => (.ok (.list [va, vb]), st2)
    | .exprRef name =>
        match getCachedDefinition st name with
        | some v => (.ok v, st)
        | none =>
            match startEvaluation st name with
            | (false, _) => (.error ("Recursive definition detected: " ++ name), st)
            | (true, st0) =>
                match defs name with
                | none => (.ok .null, endEvaluation st0 name)
                | some body =>
                    let st1 := { st0 with evalLog := st0.evalLog ++ [name] }
                    match evalExpr defs fuel st1 body with
                    | (.ok v, st2) => (.ok v, endEvaluation (cacheDefinition st2 name v) name)
                    | (.error msg, st2) => (.error msg, endEvaluation st2 name)

/-- Embeds `_evaluate_definition` as entered from a definition reference (the
`.exprRef` arm of `evalExpr`; one unit of fuel is the dispatching visit). -/
def evaluateDefinition (defs : String → Option Expr) (fuel : Nat) (st : EvalState)
    (name : String) : Except String Value × EvalState :=
  evalExpr defs (fuel + 1) st (.exprRef name)

/-- A fresh per-root-call state. -/
def EvalState.fresh : EvalState := ⟨[], [], []⟩

example :
    (evaluateDefinition (fun n => if n = "A" then some (.lit (.int 7)) else none) 5
      EvalState.fresh "A").1 = .ok (.int 7) := by rfl
example :
    (evaluateDefinition (fun n => if n = "B" then some (.exprRef "B") else none) 5
      EvalState.fresh "B").1 = .error "Recursive definition detected: B" := by rfl
example :
    (evaluateDefinition (fun n => if n = "B" then some (.exprRef "B") else none) 5
      EvalState.fresh "B").2.inProgress = [] := by rfl

mutual

/-- Canonical form of a value with respect to Python `==`: numeric values
become their rational value, `CQLCode` forgets display/version, bounds and
list elements are canonicalized recursively.  `pyEq` is characterized as
equality of canonical forms (`pyEq_iff_canon`). -/
def canon : Value → Value
  | .null => .null
  | .bool b => .dec ((boolInt b : Int) : Rat)
  | .int n => .dec ((n : Int) : Rat)
  | .dec q => .dec q
  | .str s => .str s
  | .quantity q => .quantity q
  | .code c => .code ⟨c.code, c.system, none, none⟩
  | .interval lo hi lc hc => .interval (canonOpt lo) (canonOpt hi) lc hc
  | .list xs => .list (canonList xs)

/-- Canonical form of an optional bound. -/
def canonOpt : Option Value → Option Value
  | none => none
  | some v => some (canon v)

/-- Canonical form of a list of values. -/
def canonList : List Value → List Value
  | [] => []
  | x :: xs => canon x :: canonList xs

end

/-- Invariant tying the instrumentation log to the memo cache and the
in-progress set: no definition body has been visited twice, and a definition
whose body has been visited is either cached or still being evaluated. -/
def GoodState (st : EvalState) : Prop :=
  ∀ n, st.evalLog.count n ≤ 1 ∧
    (st.evalLog.count n = 1 → getCachedDefinition st n ≠ none ∨ n ∈ st.inProgress)

/-- Values the claims call numeric: CQL Integer, Decimal and Quantity. -/
def Value.isNumeric : Value → Bool
  | .int _ => true
  | .dec _ => true
  | .quantity _ => true
  | _ => false

/-- A two-definition library exercising C3: `A` is a literal, `B` refers to
itself. -/
def exampleDefs : String → Option Expr := fun n =>
  if n = "A" then some (.lit (.int 1))
  else if n = "B" then some (.exprRef "B") else none

/-- The comparison used by the bare-direction sort: descending direction
text reverses every comparison (visitor.py:1042, 1047). -/
def sortDirectionLe (dirRaw : String) : Value → Value → Bool :=
  if strToLower dirRaw = "desc" || strToLower dirRaw = "descending" then leDesc else leAsc

/-- The non-`None` elements kept for sorting (visitor.py:1045). -/
def nonNullOf (results : List Value) : List Value :=
  results.filter (fun r => !r.isNull)

/-! ## Order-theoretic properties of the Python comparisons

These lemmas establish that `pyLt` behaves as a strict weak order on values
that are mutually orderable, which is what the sort-clause claim needs. -/

theorem charListLt_asymm : ∀ {a b : List Char},
    charListLt a b = true → charListLt b a = true → False
  | [], [], h1, _ => by simp [charListLt] at h1
  | [], _ :: _, _, h2 => by simp [charListLt] at h2
  | _ :: _, [], h1, _ => by simp [charListLt] at h1
  | c :: cs, d :: ds, h1, h2 => by
    by_cases hcd : c = d
    · subst hcd
      simp only [charListLt, if_pos rfl] at h1 h2
      exact charListLt_asymm h1 h2
    · have hdc : ¬ d = c := fun h => hcd h.symm
      simp only [charListLt, if_neg hcd, if_neg hdc, decide_eq_true_eq] at h1 h2
      exact absurd h2 (not_lt.mpr (le_of_lt h1))

theorem charListLt_connex : ∀ {a b : List Char},
    charListLt a b = false → charListLt b a = false → a = b
  | [], [], _, _ => rfl
  | [], _ :: _, h1, _ => by simp [charListLt] at h1
  | _ :: _, [], _, h2 => by simp [charListLt] at h2
  | c :: cs, d :: ds, h1, h2 => by
    by_cases hcd : c = d
    · subst hcd
      simp only [charListLt, if_pos rfl] at h1 h2
      exact congrArg (c :: ·) (charListLt_connex h1 h2)
    · have hdc : ¬ d = c := fun h => hcd h.symm
      simp only [charListLt, if_neg hcd, if_neg hdc, decide_eq_false_iff_not] at h1 h2
      exact absurd (lt_of_le_of_ne (le_of_not_lt h2) hcd) h1

theorem charListLt_notLt_trans : ∀ {a b c : List Char},
    charListLt a b = false → charListLt b c = false → charListLt a c = false
  | a, _, [], _, _ => by cases a <;> rfl
  | [], _ :: _, _, h1, _ => by simp [charListLt] at h1
  | [], [], _ :: _, _, h2 => by simp [charListLt] at h2
  | _ :: _, [], _ :: _, _, h2 => by simp [charListLt] at h2
  | a :: as, b :: bs, c :: cs, h1, h2 => by
    by_cases hab : a = b
    · subst hab
      simp only [charListLt, if_pos rfl] at h1
      by_cases hac : a = c
      · subst hac
        simp only [charListLt, if_pos rfl] at h2 ⊢
        exact charListLt_notLt_trans h1 h2
      · simp only [charListLt, if_neg hac] at h2 ⊢
        exact h2
    · simp only [charListLt, if_neg hab, decide_eq_false_iff_not] at h1
      by_cases hbc : b = c
      · subst hbc
        simp only [charListLt, if_neg hab, decide_eq_false_iff_not]
        exact h1
      · simp only [charListLt, if_neg hbc, decide_eq_false_iff_not] at h2
        by_cases hac : a = c
        · subst hac
          exact absurd (le_antisymm (le_of_not_lt h1) (le_of_not_lt h2)) 
            (fun h => hab h.symm)
        · simp only [charListLt, if_neg hac, decide_eq_false_iff_not]
          exact fun hlt => h2 (lt_of_le_of_lt (le_of_not_lt h1) hlt)

mutual

theorem pyEq_symmT : ∀ (a b : Value), pyEq a b = true → pyEq b a = true
  | .null, .null, h => h
  | .bool _, .bool _, h => by simp_all [pyEq, beq_iff_eq]
  | .bool _, .int _, h => by simp_all [pyEq, beq_iff_eq]
  | .bool _, .dec _, h => by simp_all [pyEq, beq_iff_eq]
  | .int _, .bool _, h => by simp_all [pyEq, beq_iff_eq]
  | .int _, .int _, h => by simp_all [pyEq, beq_iff_eq]
  | .int _, .dec _, h => by simp_all [pyEq, beq_iff_eq]
  | .dec _, .bool _, h => by simp_all [pyEq, beq_iff_eq]
  | .dec _, .int _, h => by simp_all [pyEq, beq_iff_eq]
  | .dec _, .dec _, h => by simp_all [pyEq, beq_iff_eq]
  | .str _, .str _, h => by simp_all [pyEq, beq_iff_eq]
  | .quantity _, .quantity _, h => by simp_all [pyEq, beq_iff_eq]
  | .code _, .code _, h => by simp_all [pyEq, beq_iff_eq]
  | .interval lo hi lc hc, .interval lo' hi' lc' hc', h => by
    simp only [pyEq, Bool.and_eq_true, beq_iff_eq] at h ⊢
    exact ⟨⟨⟨pyEqOpt_symmT lo lo' h.1.1.1, pyEqOpt_symmT hi hi' h.1.1.2⟩, h.1.2.symm⟩,
      h.2.symm⟩
  | .list xs, .list ys, h => by
    simp only [pyEq] at h ⊢
    exact pyEqList_symmT xs ys h

theorem pyEqOpt_symmT : ∀ (o o' : Option Value), pyEqOpt o o' = true → pyEqOpt o' o = true
  | none, none, h => h
  | some x, some y, h => pyEq_symmT x y h

theorem pyEqList_symmT : ∀ (xs ys : List Value), pyEqList xs ys = true → pyEqList ys xs = true
  | [], [], h => h
  | x :: xs, y :: ys, h => by
    simp only [pyEqList, Bool.and_eq_true] at h ⊢
    exact ⟨pyEq_symmT x y h.1, pyEqList_symmT xs ys h.2⟩

end


mutual

theorem pyEq_iff_canon : ∀ (a b : Value), pyEq a b = true ↔ canon a = canon b
  | .null, .null => by simp [pyEq, canon]
  | .bool x, .bool y => by
      simp only [pyEq, canon, beq_iff_eq, Value.dec.injEq, Int.cast_inj, boolInt]
      cases x <;> cases y <;> simp
  | .bool _, .int _ => by simp [pyEq, canon, beq_iff_eq]
  | .bool _, .dec _ => by simp [pyEq, canon, beq_iff_eq]
  | .int _, .bool _ => by simp [pyEq, canon, beq_iff_eq]
  | .int _, .int _ => by simp [pyEq, canon, beq_iff_eq]
  | .int _, .dec _ => by simp [pyEq, canon, beq_iff_eq]
  | .dec _, .bool _ => by simp [pyEq, canon, beq_iff_eq]
  | .dec _, .int _ => by simp [pyEq, canon, beq_iff_eq]
  | .dec _, .dec _ => by simp [pyEq, canon, beq_iff_eq]
  | .str _, .str _ => by simp [pyEq, canon, beq_iff_eq]
  | .quantity q1, .quantity q2 => by
      simp [pyEq, canon, beq_iff_eq, Quantity.mk.injEq]
      constructor
      · rintro ⟨h1, h2⟩; cases q1; cases q2; simp_all
      · intro h; subst h; simp
  | .code c1, .code c2 => by
      simp [pyEq, canon, beq_iff_eq, CQLCode.mk.injEq]
  | .interval lo hi lc hc, .interval lo' hi' lc' hc' => by
      simp only [pyEq, canon, Bool.and_eq_true, beq_iff_eq, Value.interval.injEq]
      rw [pyEqOpt_iff_canonOpt lo lo', pyEqOpt_iff_canonOpt hi hi']
      tauto
  | .list xs, .list ys => by
      simp only [pyEq, canon, Value.list.injEq]
      exact pyEqList_iff_canonList xs ys
  | .null, .bool _ => by simp [pyEq, canon]
  | .null, .int _ => by simp [pyEq, canon]
  | .null, .dec _ => by simp [pyEq, canon]
  | .null, .str _ => by simp [pyEq, canon]
  | .null, .quantity _ => by simp [pyEq, canon]
  | .null, .code _ => by simp [pyEq, canon]
  | .null, .interval _ _ _ _ => by simp [pyEq, canon]
  | .null, .list _ => by simp [pyEq, canon]
  | .bool _, .null => by simp [pyEq, canon]
  | .bool _, .str _ => by simp [pyEq, canon]
  | .bool _, .quantity _ => by simp [pyEq, canon]
  | .bool _, .code _ => by simp [pyEq, canon]
  | .bool _, .interval _ _ _ _ => by simp [pyEq, canon]
  | .bool _, .list _ => by simp [pyEq, canon]
  | .int _, .null => by simp [pyEq, canon]
  | .int _, .str _ => by simp [pyEq, canon]
  | .int _, .quantity _ => by simp [pyEq, canon]
  | .int _, .code _ => by simp [pyEq, canon]
  | .int _, .interval _ _ _ _ => by simp [pyEq, canon]
  | .int _, .list _ => by simp [pyEq, canon]
  | .dec _, .null => by simp [pyEq, canon]
  | .dec _, .str _ => by simp [pyEq, canon]
  | .dec _, .quantity _ => by simp [pyEq, canon]
  | .dec _, .code _ => by simp [pyEq, canon]
  | .dec _, .interval _ _ _ _ => by simp [pyEq, canon]
  | .dec _, .list _ => by simp [pyEq, canon]
  | .str _, .null => by simp [pyEq, canon]
  | .str _, .bool _ => by simp [pyEq, canon]
  | .str _, .int _ => by simp [pyEq, canon]
  | .str _, .dec _ => by simp [pyEq, canon]
  | .str _, .quantity _ => by simp [pyEq, canon]
  | .str _, .code _ => by simp [pyEq, canon]
  | .str _, .interval _ _ _ _ => by simp [pyEq, canon]
  | .str _, .list _ => by simp [pyEq, canon]
  | .quantity _, .null => by simp [pyEq, canon]
  | .quantity _, .bool _ => by simp [pyEq, canon]
  | .quantity _, .int _ => by simp [pyEq, canon]
  | .quantity _, .dec _ => by simp [pyEq, canon]
  | .quantity _, .str _ => by simp [pyEq, canon]
  | .quantity _, .code _ => by simp [pyEq, canon]
  | .quantity _, .interval _ _ _ _ => by simp [pyEq, canon]
  | .quantity _, .list _ => by simp [pyEq, canon]
  | .code _, .null => by simp [pyEq, canon]
  | .code _, .bool _ => by simp [pyEq, canon]
  | .code _, .int _ => by simp [pyEq, canon]
  | .code _, .dec _ => by simp [pyEq, canon]
  | .code _, .str _ => by simp [pyEq, canon]
  | .code _, .quantity _ => by simp [pyEq, canon]
  | .code _, .interval _ _ _ _ => by simp [pyEq, canon]
  | .code _, .list _ => by simp [pyEq, canon]
  | .interval _ _ _ _, .null => by simp [pyEq, canon]
  | .interval _ _ _ _, .bool _ => by simp [pyEq, canon]
  | .interval _ _ _ _, .int _ => by simp [pyEq, canon]
  | .interval _ _ _ _, .dec _ => by simp [pyEq, canon]
  | .interval _ _ _ _, .str _ => by simp [pyEq, canon]
  | .interval _ _ _ _, .quantity _ => by simp [pyEq, canon]
  | .interval _ _ _ _, .code _ => by simp [pyEq, canon]
  | .interval _ _ _ _, .list _ => by simp [pyEq, canon]
  | .list _, .null => by simp [pyEq, canon]
  | .list _, .bool _ => by simp [pyEq, canon]
  | .list _, .int _ => by simp [pyEq, canon]
  | .list _, .dec _ => by simp [pyEq, canon]
  | .list _, .str _ => by simp [pyEq, canon]
  | .list _, .quantity _ => by simp [pyEq, canon]
  | .list _, .code _ => by simp [pyEq, canon]
  | .list _, .interval _ _ _ _ => by simp [pyEq, canon]

theorem pyEqOpt_iff_canonOpt : ∀ (o o' : Option Value),
    pyEqOpt o o' = true ↔ canonOpt o = canonOpt o'
  | none, none => by simp [pyEqOpt, canonOpt]
  | none, some _ => by simp [pyEqOpt, canonOpt]
  | some _, none => by simp [pyEqOpt, canonOpt]
  | some x, some y => by
      simp only [pyEqOpt, canonOpt, Option.some.injEq]
      exact pyEq_iff_canon x y

theorem pyEqList_iff_canonList : ∀ (xs ys : List Value),
    pyEqList xs ys = true ↔ canonList xs = canonList ys
  | [], [] => by simp [pyEqList, canonList]
  | [], _ :: _ => by simp [pyEqList, canonList]
  | _ :: _, [] => by simp [pyEqList, canonList]
  | x :: xs, y :: ys => by
      simp only [pyEqList, canonList, Bool.and_eq_true, List.cons.injEq]
      rw [pyEq_iff_canon x y, pyEqList_iff_canonList xs ys]

end

mutual

theorem canon_idem : ∀ (a : Value), canon (canon a) = canon a
  | .null => rfl
  | .bool _ => rfl
  | .int _ => rfl
  | .dec _ => rfl
  | .str _ => rfl
  | .quantity _ => rfl
  | .code _ => rfl
  | .interval lo hi _ _ => by simp [canon, canonOpt_idem lo, canonOpt_idem hi]
  | .list xs => by simp [canon, canonList_idem xs]

theorem canonOpt_idem : ∀ (o : Option Value), canonOpt (canonOpt o) = canonOpt o
  | none => rfl
  | some v => by simp [canonOpt, canon_idem v]

theorem canonList_idem : ∀ (xs : List Value), canonList (canonList xs) = canonList xs
  | [] => rfl
  | x :: xs => by simp [canonList, canon_idem x, canonList_idem xs]

end

/-- Equality `pyEq` of canonical forms agrees with `pyEq` of the originals. -/
theorem pyEq_canon_canon (a b : Value) : pyEq (canon a) (canon b) = pyEq a b := by
  rw [Bool.eq_iff_iff, pyEq_iff_canon, pyEq_iff_canon, canon_idem, canon_idem]

theorem pyEq_transT (a b c : Value) (h1 : pyEq a b = true) (h2 : pyEq b c = true) :
    pyEq a c = true := by
  rw [pyEq_iff_canon] at h1 h2 ⊢
  exact h1.trans h2

mutual

theorem pyLt_canon : ∀ (a b : Value), pyLt (canon a) (canon b) = pyLt a b
  | .null, b => by cases b <;> rfl
  | .bool _, b => by cases b <;> simp [pyLt, canon, boolInt]
  | .int _, b => by cases b <;> simp [pyLt, canon, boolInt]
  | .dec _, b => by cases b <;> simp [pyLt, canon, boolInt]
  | .str _, b => by cases b <;> rfl
  | .quantity _, b => by cases b <;> rfl
  | .code _, b => by cases b <;> rfl
  | .interval _ _ _ _, b => by cases b <;> rfl
  | .list xs, .list ys => by
      simp only [canon, pyLt]
      exact pyLtList_canon xs ys
  | .list _, .null => rfl
  | .list _, .bool _ => rfl
  | .list _, .int _ => rfl
  | .list _, .dec _ => rfl
  | .list _, .str _ => rfl
  | .list _, .quantity _ => rfl
  | .list _, .code _ => rfl
  | .list _, .interval _ _ _ _ => rfl

theorem pyLtList_canon : ∀ (xs ys : List Value),
    pyLtList (canonList xs) (canonList ys) = pyLtList xs ys
  | [], [] => rfl
  | [], _ :: _ => rfl
  | _ :: _, [] => rfl
  | x :: xs, y :: ys => by
      simp only [canonList, pyLtList, pyEq_canon_canon x y]
      cases h : pyEq x y
      · simp only [Bool.false_eq_true, if_false]
        exact pyLt_canon x y
      · simp only [if_true]
        exact pyLtList_canon xs ys

end

mutual

theorem pyLt_asymm : ∀ (a b : Value), pyLt a b = some true → pyLt b a = some true → False
  | .null, b, h1, _ => by cases b <;> exact Option.noConfusion h1
  | .quantity _, b, h1, _ => by cases b <;> exact Option.noConfusion h1
  | .code _, b, h1, _ => by cases b <;> exact Option.noConfusion h1
  | .interval _ _ _ _, b, h1, _ => by cases b <;> exact Option.noConfusion h1
  | .bool _, b, h1, h2 => by
      cases b <;>
        first
        | exact Option.noConfusion h1
        | (simp only [pyLt, Option.some.injEq, decide_eq_true_eq] at h1 h2
           exact absurd h2 (not_lt.mpr h1.le))
  | .int _, b, h1, h2 => by
      cases b <;>
        first
        | exact Option.noConfusion h1
        | (simp only [pyLt, Option.some.injEq, decide_eq_true_eq] at h1 h2
           exact absurd h2 (not_lt.mpr h1.le))
  | .dec _, b, h1, h2 => by
      cases b <;>
        first
        | exact Option.noConfusion h1
        | (simp only [pyLt, Option.some.injEq, decide_eq_true_eq] at h1 h2
           exact absurd h2 (not_lt.mpr h1.le))
  | .str _, b, h1, h2 => by
      cases b <;>
        first
        | exact Option.noConfusion h1
        | (simp only [pyLt, strLt, Option.some.injEq] at h1 h2
           exact charListLt_asymm h1 h2)
  | .list _, .null, h1, _ => Option.noConfusion h1
  | .list _, .bool _, h1, _ => Option.noConfusion h1
  | .list _, .int _, h1, _ => Option.noConfusion h1
  | .list _, .dec _, h1, _ => Option.noConfusion h1
  | .list _, .str _, h1, _ => Option.noConfusion h1
  | .list _, .quantity _, h1, _ => Option.noConfusion h1
  | .list _, .code _, h1, _ => Option.noConfusion h1
  | .list _, .interval _ _ _ _, h1, _ => Option.noConfusion h1
  | .list xs, .list ys, h1, h2 => pyLtList_asymm xs ys h1 h2

theorem pyLtList_asymm : ∀ (xs ys : List Value),
    pyLtList xs ys = some true → pyLtList ys xs = some true → False
  | [], [], h1, _ => by simp [pyLtList] at h1
  | [], _ :: _, _, h2 => by simp [pyLtList] at h2
  | _ :: _, [], h1, _ => by simp [pyLtList] at h1
  | x :: xs, y :: ys, h1, h2 => by
      cases hxy : pyEq x y with
      | true =>
        have hyx : pyEq y x = true := pyEq_symmT x y hxy
        rw [pyLtList, if_pos hxy] at h1
        rw [pyLtList, if_pos hyx] at h2
        exact pyLtList_asymm xs ys h1 h2
      | false =>
        have hyx : pyEq y x = false := by
          cases hyx : pyEq y x with
          | true => exact absurd (pyEq_symmT y x hyx) (by simp [hxy])
          | false => rfl
        rw [pyLtList, if_neg (by simp [hxy])] at h1
        rw [pyLtList, if_neg (by simp [hyx])] at h2
        exact pyLt_asymm x y h1 h2

end

theorem pyEq_congrL {x y : Value} (hxy : pyEq x y = true) (z : Value) :
    pyEq x z = pyEq y z := by
  rw [Bool.eq_iff_iff, pyEq_iff_canon, pyEq_iff_canon, (pyEq_iff_canon x y).mp hxy]

theorem pyEq_congrR {x y : Value} (hxy : pyEq x y = true) (z : Value) :
    pyEq z x = pyEq z y := by
  rw [Bool.eq_iff_iff, pyEq_iff_canon, pyEq_iff_canon, (pyEq_iff_canon x y).mp hxy]

theorem pyLt_congrL {x y : Value} (hxy : pyEq x y = true) (z : Value) :
    pyLt x z = pyLt y z := by
  rw [← pyLt_canon x z, ← pyLt_canon y z, (pyEq_iff_canon x y).mp hxy]

theorem pyLt_congrR {x y : Value} (hxy : pyEq x y = true) (z : Value) :
    pyLt z x = pyLt z y := by
  rw [← pyLt_canon z x, ← pyLt_canon z y, (pyEq_iff_canon x y).mp hxy]

mutual

theorem pyLt_connex : ∀ (a b : Value), pyLt a b = some false → pyLt b a = some false →
    pyEq a b = true
  | .null, b, h1, _ => by cases b <;> exact Option.noConfusion h1
  | .quantity _, b, h1, _ => by cases b <;> exact Option.noConfusion h1
  | .code _, b, h1, _ => by cases b <;> exact Option.noConfusion h1
  | .interval _ _ _ _, b, h1, _ => by cases b <;> exact Option.noConfusion h1
  | .bool _, b, h1, h2 => by
      cases b <;>
        first
        | exact Option.noConfusion h1
        | (rw [← pyLt_canon] at h1 h2
           rw [Bool.eq_iff_iff, pyEq_iff_canon]
           simp only [canon, pyLt, Option.some.injEq, decide_eq_false_iff_not] at h1 h2 ⊢
           simp [Value.dec.injEq, le_antisymm (le_of_not_lt h2) (le_of_not_lt h1)])
  | .int _, b, h1, h2 => by
      cases b <;>
        first
        | exact Option.noConfusion h1
        | (rw [← pyLt_canon] at h1 h2
           rw [Bool.eq_iff_iff, pyEq_iff_canon]
           simp only [canon, pyLt, Option.some.injEq, decide_eq_false_iff_not] at h1 h2 ⊢
           simp [Value.dec.injEq, le_antisymm (le_of_not_lt h2) (le_of_not_lt h1)])
  | .dec _, b, h1, h2 => by
      cases b <;>
        first
        | exact Option.noConfusion h1
        | (rw [← pyLt_canon] at h1 h2
           rw [Bool.eq_iff_iff, pyEq_iff_canon]
           simp only [canon, pyLt, Option.some.injEq, decide_eq_false_iff_not] at h1 h2 ⊢
           simp [Value.dec.injEq, le_antisymm (le_of_not_lt h2) (le_of_not_lt h1)])
  | .str _, b, h1, h2 => by
      cases b <;>
        first
        | exact Option.noConfusion h1
        | (simp only [pyLt, strLt, Option.some.injEq] at h1 h2
           simp only [pyEq, beq_iff_eq]
           have := charListLt_connex h1 h2
           exact String.ext (by simpa [String.toList] using this))
  | .list _, .null, h1, _ => Option.noConfusion h1
  | .list _, .bool _, h1, _ => Option.noConfusion h1
  | .list _, .int _, h1, _ => Option.noConfusion h1
  | .list _, .dec _, h1, _ => Option.noConfusion h1
  | .list _, .str _, h1, _ => Option.noConfusion h1
  | .list _, .quantity _, h1, _ => Option.noConfusion h1
  | .list _, .code _, h1, _ => Option.noConfusion h1
  | .list _, .interval _ _ _ _, h1, _ => Option.noConfusion h1
  | .list xs, .list ys, h1, h2 => pyLtList_connex xs ys h1 h2

theorem pyLtList_connex : ∀ (xs ys : List Value),
    pyLtList xs ys = some false → pyLtList ys xs = some false → pyEqList xs ys = true
  | [], [], _, _ => rfl
  | [], _ :: _, h1, _ => Bool.noConfusion (Option.some.inj h1)
  | _ :: _, [], _, h2 => Bool.noConfusion (Option.some.inj h2)
  | x :: xs, y :: ys, h1, h2 => by
      cases hxy : pyEq x y with
      | true =>
        have hyx : pyEq y x = true := pyEq_symmT x y hxy
        rw [pyLtList, if_pos hxy] at h1
        rw [pyLtList, if_pos hyx] at h2
        simp only [pyEqList, Bool.and_eq_true]
        exact ⟨hxy, pyLtList_connex xs ys h1 h2⟩
      | false =>
        have hyx : pyEq y x = false := by
          cases hyx : pyEq y x with
          | true => exact absurd (pyEq_symmT y x hyx) (by simp [hxy])
          | false => rfl
        rw [pyLtList, if_neg (by simp [hxy])] at h1
        rw [pyLtList, if_neg (by simp [hyx])] at h2
        exact absurd (pyLt_connex x y h1 h2) (by simp [hxy])

end

mutual

theorem pyLt_notLt_trans : ∀ (a b c : Value), pyLt a b = some false →
    pyLt b c = some false → pyLt a c = some true → False
  | .null, b, _, h1, _, _ => by cases b <;> exact Option.noConfusion h1
  | .quantity _, b, _, h1, _, _ => by cases b <;> exact Option.noConfusion h1
  | .code _, b, _, h1, _, _ => by cases b <;> exact Option.noConfusion h1
  | .interval _ _ _ _, b, _, h1, _, _ => by cases b <;> exact Option.noConfusion h1
  | .bool _, b, c, h1, h2, h3 => by
      cases b <;>
        first
        | exact Option.noConfusion h1
        | (rw [← pyLt_canon] at h1 h2 h3
           cases c <;>
             first
             | exact Option.noConfusion h2
             | (simp only [canon, pyLt, Option.some.injEq, decide_eq_false_iff_not,
                  decide_eq_true_eq] at h1 h2 h3
                exact absurd h3
                  (not_lt.mpr (le_trans (le_of_not_lt h2) (le_of_not_lt h1)))))
  | .int _, b, c, h1, h2, h3 => by
      cases b <;>
        first
        | exact Option.noConfusion h1
        | (rw [← pyLt_canon] at h1 h2 h3
           cases c <;>
             first
             | exact Option.noConfusion h2
             | (simp only [canon, pyLt, Option.some.injEq, decide_eq_false_iff_not,
                  decide_eq_true_eq] at h1 h2 h3
                exact absurd h3
                  (not_lt.mpr (le_trans (le_of_not_lt h2) (le_of_not_lt h1)))))
  | .dec _, b, c, h1, h2, h3 => by
      cases b <;>
        first
        | exact Option.noConfusion h1
        | (rw [← pyLt_canon] at h1 h2 h3
           cases c <;>
             first
             | exact Option.noConfusion h2
             | (simp only [canon, pyLt, Option.some.injEq, decide_eq_false_iff_not,
                  decide_eq_true_eq] at h1 h2 h3
                exact absurd h3
                  (not_lt.mpr (le_trans (le_of_not_lt h2) (le_of_not_lt h1)))))
  | .str _, b, c, h1, h2, h3 => by
      cases b <;>
        first
        | exact Option.noConfusion h1
        | (cases c <;>
             first
             | exact Option.noConfusion h2
             | (simp only [pyLt, strLt, Option.some.injEq] at h1 h2 h3
                exact Bool.noConfusion ((charListLt_notLt_trans h1 h2).symm.trans h3)))
  | .list _, .null, _, h1, _, _ => Option.noConfusion h1
  | .list _, .bool _, _, h1, _, _ => Option.noConfusion h1
  | .list _, .int _, _, h1, _, _ => Option.noConfusion h1
  | .list _, .dec _, _, h1, _, _ => Option.noConfusion h1
  | .list _, .str _, _, h1, _, _ => Option.noConfusion h1
  | .list _, .quantity _, _, h1, _, _ => Option.noConfusion h1
  | .list _, .code _, _, h1, _, _ => Option.noConfusion h1
  | .list _, .interval _ _ _ _, _, h1, _, _ => Option.noConfusion h1
  | .list _, .list _, .null, _, h2, _ => Option.noConfusion h2
  | .list _, .list _, .bool _, _, h2, _ => Option.noConfusion h2
  | .list _, .list _, .int _, _, h2, _ => Option.noConfusion h2
  | .list _, .list _, .dec _, _, h2, _ => Option.noConfusion h2
  | .list _, .list _, .str _, _, h2, _ => Option.noConfusion h2
  | .list _, .list _, .quantity _, _, h2, _ => Option.noConfusion h2
  | .list _, .list _, .code _, _, h2, _ => Option.noConfusion h2
  | .list _, .list _, .interval _ _ _ _, _, h2, _ => Option.noConfusion h2
  | .list xs, .list ys, .list zs, h1, h2, h3 => pyLtList_notLt_trans xs ys zs h1 h2 h3

theorem pyLtList_notLt_trans : ∀ (xs ys zs : List Value), pyLtList xs ys = some false →
    pyLtList ys zs = some false → pyLtList xs zs = some true → False
  | xs, _, [], _, _, h3 => by
      cases xs <;> exact Bool.noConfusion (Option.some.inj h3)
  | [], [], _ :: _, _, h2, _ => Bool.noConfusion (Option.some.inj h2)
  | [], _ :: _, _ :: _, h1, _, _ => Bool.noConfusion (Option.some.inj h1)
  | _ :: _, [], _ :: _, _, h2, _ => Bool.noConfusion (Option.some.inj h2)
  | x :: xs, y :: ys, z :: zs, h1, h2, h3 => by
      cases hxy : pyEq x y with
      | true =>
        rw [pyLtList, if_pos hxy] at h1
        cases hyz : pyEq y z with
        | true =>
          rw [pyLtList, if_pos hyz] at h2
          have hxz : pyEq x z = true := pyEq_transT x y z hxy hyz
          rw [pyLtList, if_pos hxz] at h3
          exact pyLtList_notLt_trans xs ys zs h1 h2 h3
        | false =>
          rw [pyLtList, if_neg (by simp [hyz])] at h2
          have hxz : pyEq x z = false := by rw [pyEq_congrL hxy z]; exact hyz
          rw [pyLtList, if_neg (by simp [hxz])] at h3
          rw [pyLt_congrL hxy z] at h3
          rw [h2] at h3
          exact Bool.noConfusion (Option.some.inj h3)
      | false =>
        rw [pyLtList, if_neg (by simp [hxy])] at h1
        cases hyz : pyEq y z with
        | true =>
          rw [pyLtList, if_pos hyz] at h2
          have hxz : pyEq x z = false := by rw [← pyEq_congrR hyz x]; exact hxy
          rw [pyLtList, if_neg (by simp [hxz])] at h3
          rw [← pyLt_congrR hyz x] at h3
          rw [h1] at h3
          exact Bool.noConfusion (Option.some.inj h3)
        | false =>
          rw [pyLtList, if_neg (by simp [hyz])] at h2
          cases hxz : pyEq x z with
          | true =>
            have h2' : pyLt y x = some false := by rw [pyLt_congrR hxz y]; exact h2
            exact absurd (pyLt_connex x y h1 h2') (by simp [hxy])
          | false =>
            rw [pyLtList, if_neg (by simp [hxz])] at h3
            exact pyLt_notLt_trans x y z h1 h2 h3

end

/-! ## Stable-sort properties of `pySortList` -/

theorem pyInsert_perm (le : Value → Value → Bool) (x : Value) :
    ∀ (l : List Value), (pyInsert le x l).Perm (x :: l)
  | [] => List.Perm.refl _
  | y :: ys => by
    rw [pyInsert]
    by_cases h : le x y = true
    · rw [if_pos h]
    · rw [if_neg h]
      exact ((pyInsert_perm le x ys).cons y).trans (List.Perm.swap x y ys)

theorem pySortList_perm (le : Value → Value → Bool) :
    ∀ (l : List Value), (pySortList le l).Perm l
  | [] => List.Perm.refl _
  | x :: xs =>
    (pyInsert_perm le x (pySortList le xs)).trans ((pySortList_perm le xs).cons x)

theorem mem_pyInsert {le : Value → Value → Bool} {x a : Value} {l : List Value}
    (h : a ∈ pyInsert le x l) : a = x ∨ a ∈ l := by
  have := (pyInsert_perm le x l).mem_iff.mp h
  simpa using this

theorem pyInsert_pairwise (le : Value → Value → Bool) (x : Value) (l : List Value)
    (hl : List.Pairwise (fun a b => le a b = true) l)
    (htot : ∀ b ∈ l, (le x b || le b x) = true)
    (htrans : ∀ b ∈ l, ∀ c ∈ l, le x b = true → le b c = true → le x c = true) :
    List.Pairwise (fun a b => le a b = true) (pyInsert le x l) := by
  induction l with
  | nil => simp [pyInsert]
  | cons y ys ih =>
    rw [pyInsert]
    by_cases h : le x y = true
    · rw [if_pos h]
      refine List.Pairwise.cons ?_ hl
      intro z hz
      rcases List.mem_cons.mp hz with rfl | hz
      · exact h
      · exact htrans y (by simp) z (by simp [hz]) h ((List.pairwise_cons.mp hl).1 z hz)
    · rw [if_neg h]
      refine List.Pairwise.cons ?_ ?_
      · intro z hz
        rcases mem_pyInsert hz with rfl | hz
        · have := htot y (by simp)
          simp only [h, Bool.false_or] at this
          exact this
        · exact (List.pairwise_cons.mp hl).1 z hz
      · exact ih (List.pairwise_cons.mp hl).2
          (fun b hb => htot b (by simp [hb]))
          (fun b hb c hc => htrans b (by simp [hb]) c (by simp [hc]))

theorem pySortList_pairwise (le : Value → Value → Bool) (l : List Value)
    (htot : ∀ a ∈ l, ∀ b ∈ l, (le a b || le b a) = true)
    (htrans : ∀ a ∈ l, ∀ b ∈ l, ∀ c ∈ l, le a b = true → le b c = true → le a c = true) :
    List.Pairwise (fun a b => le a b = true) (pySortList le l) := by
  induction l with
  | nil => simp [pySortList]
  | cons x xs ih =>
    rw [pySortList]
    have hmem : ∀ b ∈ pySortList le xs, b ∈ xs :=
      fun b hb => (pySortList_perm le xs).mem_iff.mp hb
    exact pyInsert_pairwise le x (pySortList le xs)
      (ih (fun a ha b hb => htot a (by simp [ha]) b (by simp [hb]))
          (fun a ha b hb c hc =>
            htrans a (by simp [ha]) b (by simp [hb]) c (by simp [hc])))
      (fun b hb => htot x (by simp) b (by simp [hmem b hb]))
      (fun b hb c hc => htrans x (by simp) b (by simp [hmem b hb]) c (by simp [hmem c hc]))

theorem pyInsert_split (le : Value → Value → Bool) (x : Value) :
    ∀ (l : List Value), ∃ P Q, pyInsert le x l = P ++ x :: Q ∧ l = P ++ Q ∧
      ∀ y ∈ P, le x y = false
  | [] => ⟨[], [], rfl, rfl, by simp⟩
  | y :: ys => by
    by_cases h : le x y = true
    · exact ⟨[], y :: ys, by rw [pyInsert, if_pos h]; rfl, rfl, by simp⟩
    · obtain ⟨P, Q, h1, h2, h3⟩ := pyInsert_split le x ys
      refine ⟨y :: P, Q, ?_, by simp [h2], ?_⟩
      · rw [pyInsert, if_neg h, h1]; rfl
      · intro z hz
        rcases List.mem_cons.mp hz with rfl | hz
        · simpa using h
        · exact h3 z hz

theorem sublist_pyInsert (le : Value → Value → Bool) (x : Value) (l : List Value) :
    List.Sublist l (pyInsert le x l) := by
  obtain ⟨P, Q, h1, h2, _⟩ := pyInsert_split le x l
  rw [h1, h2]
  exact List.Sublist.append_left (List.sublist_cons_self x Q) P

theorem pySortList_sublist (le : Value → Value → Bool) :
    ∀ (c l : List Value), List.Pairwise (fun a b => le a b = true) c →
      List.Sublist c l → List.Sublist c (pySortList le l)
  | c, [], _, hsub => by
      have : c = [] := by simpa using hsub
      simp [this, pySortList]
  | c, x :: xs, hc, hsub => by
    rw [pySortList]
    rcases List.sublist_cons_iff.mp hsub with hsub | ⟨r, rfl, hr⟩
    · exact (pySortList_sublist le c xs hc hsub).trans (sublist_pyInsert le x _)
    · obtain ⟨P, Q, h1, h2, h3⟩ := pyInsert_split le x (pySortList le xs)
      have hrQ : List.Sublist r Q := by
        have hrs : List.Sublist r (pySortList le xs) :=
          pySortList_sublist le r xs (List.pairwise_cons.mp hc).2 hr
        rw [h2] at hrs
        refine List.Sublist.of_sublist_append_right ?_ hrs
        intro a ha haP
        have hxa : le x a = true := (List.pairwise_cons.mp hc).1 a ha
        rw [h3 a haP] at hxa
        exact Bool.noConfusion hxa
      rw [h1]
      exact ((hrQ.cons₂ x).trans (List.sublist_append_right P (x :: Q)))

/-! ## Invariants of definition evaluation -/


theorem endEvaluation_evalLog (st : EvalState) (name : String) :
    (endEvaluation st name).evalLog = st.evalLog := rfl

theorem getCached_cacheDefinition (st : EvalState) (name n : String) (v : Value) :
    getCachedDefinition (cacheDefinition st name v) n =
      if name = n then some v else getCachedDefinition st n := by
  simp only [getCachedDefinition, cacheDefinition, List.find?_cons]
  by_cases h : name = n
  · have hb : (name == n) = true := by simp [h]
    simp [hb, h]
  · have hb : (name == n) = false := by simp [h]
    simp [hb, h]

theorem mem_endEvaluation {st : EvalState} {name n : String} (hn : n ≠ name)
    (h : n ∈ st.inProgress) : n ∈ (endEvaluation st name).inProgress := by
  simp only [endEvaluation, List.mem_filter, decide_eq_true_eq]
  exact ⟨h, hn⟩

theorem not_mem_endEvaluation (st : EvalState) (name : String) :
    name ∉ (endEvaluation st name).inProgress := by
  simp [endEvaluation, List.mem_filter]

theorem evalExpr_good (defs : String → Option Expr) :
    ∀ (fuel : Nat) (st : EvalState) (e : Expr), GoodState st →
      (∀ n, ((evalExpr defs fuel st e).2.evalLog.count n ≤ 1)) ∧
      (∀ v st', evalExpr defs fuel st e = (.ok v, st') → GoodState st') := by
  intro fuel
  induction fuel with
  | zero =>
    intro st e hst
    refine ⟨fun n => ?_, fun v st' h => ?_⟩
    · simpa [evalExpr] using (hst n).1
    · simp [evalExpr] at h
  | succ fuel ih =>
    intro st e hst
    cases e with
    | lit v =>
      refine ⟨fun n => ?_, fun v' st' h => ?_⟩
      · simpa [evalExpr] using (hst n).1
      · simp only [evalExpr, Prod.mk.injEq, Except.ok.injEq] at h
        exact h.2 ▸ hst
    | listSel a b =>
      rcases ha : evalExpr defs fuel st a with ⟨ra, st1⟩
      cases ra with
      | error msg =>
        refine ⟨fun n => ?_, fun v' st' h => ?_⟩
        · have := ((ih st a hst).1 n)
          simpa [evalExpr, ha] using this
        · simp [evalExpr, ha] at h
      | ok va =>
        have hst1 : GoodState st1 := (ih st a hst).2 va st1 ha
        rcases hb : evalExpr defs fuel st1 b with ⟨rb, st2⟩
        cases rb with
        | error msg =>
          refine ⟨fun n => ?_, fun v' st' h => ?_⟩
          · have := ((ih st1 b hst1).1 n)
            simpa [evalExpr, ha, hb] using this
          · simp [evalExpr, ha, hb] at h
        | ok vb =>
          have hst2 : GoodState st2 := (ih st1 b hst1).2 vb st2 hb
          refine ⟨fun n => ?_, fun v' st' h => ?_⟩
          · have := ((ih st1 b hst1).1 n)
            simpa [evalExpr, ha, hb] using this
          · simp only [evalExpr, ha, hb, Prod.mk.injEq, Except.ok.injEq] at h
            exact h.2 ▸ hst2
    | exprRef name =>
      cases hc : getCachedDefinition st name with
      | some v =>
        refine ⟨fun n => ?_, fun v' st' h => ?_⟩
        · simpa [evalExpr, hc] using (hst n).1
        · simp only [evalExpr, hc, Prod.mk.injEq, Except.ok.injEq] at h
          exact h.2 ▸ hst
      | none =>
        by_cases hip : name ∈ st.inProgress
        · refine ⟨fun n => ?_, fun v' st' h => ?_⟩
          · simpa [evalExpr, hc, startEvaluation, hip] using (hst n).1
          · simp [evalExpr, hc, startEvaluation, hip] at h
        · cases hd : defs name with
          | none =>
            refine ⟨fun n => ?_, fun v' st' h => ?_⟩
            · simpa [evalExpr, hc, startEvaluation, hip, endEvaluation, hd]
                using (hst n).1
            · simp [evalExpr, hc, startEvaluation, hip, hd] at h
              obtain ⟨-, h2⟩ := h
              subst h2
              refine fun n => ⟨?_, fun hcount => ?_⟩
              · simpa [endEvaluation] using (hst n).1
              · rcases (hst n).2 (by simpa [endEvaluation] using hcount) with hmem | hmem
                · exact Or.inl (by simpa [endEvaluation, getCachedDefinition] using hmem)
                · rcases eq_or_ne n name with rfl | hne
                  · exact absurd hmem hip
                  · refine Or.inr ?_
                    simp only [endEvaluation, List.mem_filter, decide_eq_true_eq]
                    exact ⟨List.mem_cons_of_mem _ hmem, hne⟩
          | some body =>
            have hcount0 : st.evalLog.count name = 0 := by
              rcases Nat.lt_or_ge (st.evalLog.count name) 1 with h1 | h1
              · omega
              · have hone : st.evalLog.count name = 1 :=
                  le_antisymm (hst name).1 h1
                rcases (hst name).2 hone with hmem | hmem
                · exact absurd hc hmem
                · exact absurd hmem hip
            set st1 : EvalState :=
              { st with inProgress := name :: st.inProgress,
                        evalLog := st.evalLog ++ [name] } with hst1def
            have hst1 : GoodState st1 := by
              intro n
              rcases eq_or_ne n name with rfl | hne
              · constructor
                · simp [hst1def, List.count_append, hcount0]
                · intro _
                  exact Or.inr (by simp [hst1def])
              · have hcn : st1.evalLog.count n = st.evalLog.count n := by
                  simp [hst1def, List.count_append, List.count_singleton,
                    beq_iff_eq, Ne.symm hne]
                constructor
                · rw [hcn]; exact (hst n).1
                · intro hcnt
                  rcases (hst n).2 (hcn ▸ hcnt) with hmem | hmem
                  · exact Or.inl (by simpa [hst1def, getCachedDefinition] using hmem)
                  · exact Or.inr (by simp [hst1def, hmem])
            rcases hb : evalExpr defs fuel st1 body with ⟨rb, st2⟩
            cases rb with
            | error msg =>
              refine ⟨fun n => ?_, fun v' st' h => ?_⟩
              · have := ((ih st1 body hst1).1 n)
                simpa [evalExpr, hc, startEvaluation, hip, hd, hb, endEvaluation]
                  using this
              · simp [evalExpr, hc, startEvaluation, hip, hd, hb] at h
            | ok v =>
              have hst2 : GoodState st2 := (ih st1 body hst1).2 v st2 hb
              refine ⟨fun n => ?_, fun v' st' h => ?_⟩
              · have := ((ih st1 body hst1).1 n)
                simpa [evalExpr, hc, startEvaluation, hip, hd, hb, endEvaluation]
                  using this
              · simp [evalExpr, hc, startEvaluation, hip, hd, hb] at h
                obtain ⟨-, h2⟩ := h
                subst h2
                refine fun n => ⟨?_, fun hcount => ?_⟩
                · simpa [endEvaluation, cacheDefinition] using (hst2 n).1
                · have hcount2 : st2.evalLog.count n = 1 := by
                    simpa [endEvaluation, cacheDefinition] using hcount
                  rcases eq_or_ne n name with rfl | hne
                  · refine Or.inl ?_
                    have hq := getCached_cacheDefinition st2 n n v
                    rw [if_pos rfl] at hq
                    have : getCachedDefinition (endEvaluation (cacheDefinition st2 n v) n) n =
                        getCachedDefinition (cacheDefinition st2 n v) n := rfl
                    rw [this, hq]
                    simp
                  · rcases (hst2 n).2 hcount2 with hmem | hmem
                    · refine Or.inl ?_
                      have hq := getCached_cacheDefinition st2 name n v
                      rw [if_neg (Ne.symm hne)] at hq
                      have : getCachedDefinition
                          (endEvaluation (cacheDefinition st2 name v) name) n =
                          getCachedDefinition (cacheDefinition st2 name v) n := rfl
                      rw [this, hq]
                      exact hmem
                    · exact Or.inr (mem_endEvaluation hne
                        (by simp [cacheDefinition, hmem]))

theorem leAsc_total (a b : Value) : (leAsc a b || leAsc b a) = true := by
  simp only [leAsc, Bool.or_eq_true, Bool.not_eq_true']
  by_contra hcon
  push_neg at hcon
  obtain ⟨h1, h2⟩ := hcon
  rcases hab : pyLt a b with _ | x <;> rcases hba : pyLt b a with _ | y
  · simp [hab, hba] at h1 h2
  · simp [hab, hba] at h1 h2
  · simp [hab, hba] at h1 h2
  · simp [hab, hba] at h1 h2
    exact pyLt_asymm a b (by simp [hab, h2]) (by simp [hba, h1])

theorem leDesc_total (a b : Value) : (leDesc a b || leDesc b a) = true := by
  simp only [leDesc, Bool.or_eq_true, Bool.not_eq_true']
  by_contra hcon
  push_neg at hcon
  obtain ⟨h1, h2⟩ := hcon
  rcases hab : pyLt a b with _ | x <;> rcases hba : pyLt b a with _ | y
  · simp [hab, hba] at h1 h2
  · simp [hab, hba] at h1 h2
  · simp [hab, hba] at h1 h2
  · simp [hab, hba] at h1 h2
    exact pyLt_asymm a b (by simp [hab, h1]) (by simp [hba, h2])

theorem mutuallyComparable_isSome {l : List Value} (h : mutuallyComparable l = true)
    {a b : Value} (ha : a ∈ l) (hb : b ∈ l) : (pyLt a b).isSome = true := by
  simp only [mutuallyComparable, List.all_eq_true] at h
  exact h a ha b hb

theorem leAsc_trans_on {l : List Value} (hcmp : mutuallyComparable l = true)
    {a b c : Value} (ha : a ∈ l) (hb : b ∈ l) (hc : c ∈ l)
    (h1 : leAsc a b = true) (h2 : leAsc b c = true) : leAsc a c = true := by
  simp only [leAsc, Bool.not_eq_true'] at h1 h2 ⊢
  rcases Option.isSome_iff_exists.mp (mutuallyComparable_isSome hcmp hb ha) with ⟨x, hba⟩
  rcases Option.isSome_iff_exists.mp (mutuallyComparable_isSome hcmp hc hb) with ⟨y, hcb⟩
  rcases Option.isSome_iff_exists.mp (mutuallyComparable_isSome hcmp hc ha) with ⟨w, hca⟩
  rw [hba] at h1; rw [hcb] at h2; rw [hca]
  simp only [Option.getD_some] at h1 h2 ⊢
  subst h1; subst h2
  cases w with
  | false => rfl
  | true => exact absurd (pyLt_notLt_trans c b a hcb hba hca) (by simp)

theorem leDesc_trans_on {l : List Value} (hcmp : mutuallyComparable l = true)
    {a b c : Value} (ha : a ∈ l) (hb : b ∈ l) (hc : c ∈ l)
    (h1 : leDesc a b = true) (h2 : leDesc b c = true) : leDesc a c = true := by
  simp only [leDesc, Bool.not_eq_true'] at h1 h2 ⊢
  rcases Option.isSome_iff_exists.mp (mutuallyComparable_isSome hcmp ha hb) with ⟨x, hab⟩
  rcases Option.isSome_iff_exists.mp (mutuallyComparable_isSome hcmp hb hc) with ⟨y, hbc⟩
  rcases Option.isSome_iff_exists.mp (mutuallyComparable_isSome hcmp ha hc) with ⟨w, hac⟩
  rw [hab] at h1; rw [hbc] at h2; rw [hac]
  simp only [Option.getD_some] at h1 h2 ⊢
  subst h1; subst h2
  cases w with
  | false => rfl
  | true => exact absurd (pyLt_notLt_trans a b c hab hbc hac) (by simp)

theorem isNull_eq_iff {v : Value} : v.isNull = true ↔ v = .null := by
  cases v <;> simp [Value.isNull]

/-! ## Claim theorems -/

/-- Claim C1: for every pair of operands, if either operand evaluates to Null
then the binary operators `+`, `-`, `*`, `/`, `<`, `<=`, `>`, `>=`, `=` and
`!=` evaluate to Null; the single exception among these operators is string
concatenation `&`, which substitutes the empty string for each Null operand
and returns the concatenation of the resulting (`str(...)`) strings. -/
theorem C1_null_operand_propagation (l r : Value) (h : l = .null ∨ r = .null) :
    visitAdditionExpressionTerm l r "+" = .ok .null ∧
    visitAdditionExpressionTerm l r "-" = .ok .null ∧
    visitMultiplicationExpressionTerm l r "*" = .ok .null ∧
    visitMultiplicationExpressionTerm l r "/" = .ok .null ∧
    visitInequalityExpression l r "<" = .ok .null ∧
    visitInequalityExpression l r "<=" = .ok .null ∧
    visitInequalityExpression l r ">" = .ok .null ∧
    visitInequalityExpression l r ">=" = .ok .null ∧
    visitEqualityExpression l r "=" = .ok .null ∧
    visitEqualityExpression l r "!=" = .ok .null ∧
    visitAdditionExpressionTerm l r "&" =
      .ok (.str ((if l.isNull then "" else pyStr l) ++
                 (if r.isNull then "" else pyStr r))) := by
  have hnull : (l.isNull || r.isNull) = true := by
    rcases h with rfl | rfl <;> simp [Value.isNull]
  refine ⟨?_, ?_, ?_, ?_, ?_, ?_, ?_, ?_, ?_, ?_, ?_⟩ <;>
    simp [visitAdditionExpressionTerm, visitMultiplicationExpressionTerm,
      visitInequalityExpression, visitEqualityExpression, hnull]

/-- Witness for C1 at `l = Null`, `r = 7`. -/
theorem C1_null_operand_propagation_witness :
    visitAdditionExpressionTerm .null (.int 7) "+" = .ok .null ∧
    visitEqualityExpression .null (.int 7) "=" = .ok .null ∧
    visitAdditionExpressionTerm .null (.int 7) "&" = .ok (.str "7") := by
  have h := C1_null_operand_propagation .null (.int 7) (Or.inl rfl)
  refine ⟨h.1, h.2.2.2.2.2.2.2.2.1, ?_⟩
  have := h.2.2.2.2.2.2.2.2.2.2
  simpa [Value.isNull, pyStr] using this


/-- Claim C5: for every numeric left operand, the operators `/`, `div` and
`mod` with a right operand equal to zero (Python `right == 0`, i.e. an
Integer or Decimal zero) evaluate to Null and never raise an error. -/
theorem C5_division_by_zero_null (l r : Value) (hl : l.isNumeric = true)
    (hr : r = .int 0 ∨ r = .dec 0) :
    visitMultiplicationExpressionTerm l r "/" = .ok .null ∧
    visitMultiplicationExpressionTerm l r "div" = .ok .null ∧
    visitMultiplicationExpressionTerm l r "mod" = .ok .null := by
  have hlnull : l.isNull = false := by
    cases l <;> simp_all [Value.isNumeric, Value.isNull]
  have hzero : pyEqZero r = true := by
    rcases hr with rfl | rfl <;> simp [pyEqZero, pyEq]
  have hrnull : r.isNull = false := by
    rcases hr with rfl | rfl <;> simp [Value.isNull]
  refine ⟨?_, ?_, ?_⟩ <;>
    simp [visitMultiplicationExpressionTerm, hlnull, hrnull, divideValues,
      truncatedDivide, moduloValues, hzero]

/-- Witness for C5 at `l = 5`, `r = 0`. -/
theorem C5_division_by_zero_null_witness :
    visitMultiplicationExpressionTerm (.int 5) (.int 0) "/" = .ok .null ∧
    visitMultiplicationExpressionTerm (.int 5) (.int 0) "div" = .ok .null ∧
    visitMultiplicationExpressionTerm (.int 5) (.int 0) "mod" = .ok .null :=
  C5_division_by_zero_null (.int 5) (.int 0) rfl (Or.inl rfl)

/-- Claim C6: equality of two Quantity values requires equal units: with
equal units it returns the comparison of the numeric values, and with
different units it returns Null rather than False. -/
theorem C6_quantity_equality_units (v v' : Rat) (u u' : String) :
    (u = u' → visitEqualityExpression (.quantity ⟨v, u⟩) (.quantity ⟨v', u'⟩) "=" =
       .ok (.bool (v == v'))) ∧
    (u ≠ u' → visitEqualityExpression (.quantity ⟨v, u⟩) (.quantity ⟨v', u'⟩) "=" =
       .ok .null) := by
  constructor
  · intro hu
    subst hu
    simp [visitEqualityExpression, Value.isNull, cqlEquals, optBoolValue]
  · intro hu
    simp [visitEqualityExpression, Value.isNull, cqlEquals, hu, optBoolValue]

/-- Witness for C6: `10 'mg' = 10 'mg'` is `True` and `10 'mg' = 10 'g'` is
`Null`. -/
theorem C6_quantity_equality_units_witness :
    visitEqualityExpression (.quantity ⟨10, "mg"⟩) (.quantity ⟨10, "mg"⟩) "=" =
      .ok (.bool true) ∧
    visitEqualityExpression (.quantity ⟨10, "mg"⟩) (.quantity ⟨10, "g"⟩) "=" =
      .ok .null := by
  constructor
  · have h := (C6_quantity_equality_units 10 10 "mg" "mg").1 rfl
    simpa using h
  · exact (C6_quantity_equality_units 10 10 "mg" "g").2 (by simp)

/-- Claim C9: the equivalence operators `~` and `!~` return exactly the same
result as `=` and `!=` respectively; `Null ~ x` is Null for every `x`; and
Code equivalence coincides with Code equality (both compare code and system
only). -/
theorem C9_equivalence_coincides_with_equality :
    (∀ l r : Value, visitEqualityExpression l r "~" = visitEqualityExpression l r "=") ∧
    (∀ l r : Value, visitEqualityExpression l r "!~" = visitEqualityExpression l r "!=") ∧
    (∀ x : Value, visitEqualityExpression .null x "~" = .ok .null) ∧
    (∀ a b : CQLCode, CQLCode.equivalent a b = CQLCode.eqMethod a b) := by
  refine ⟨fun l r => ?_, fun l r => ?_, fun x => ?_, fun a b => rfl⟩
  · simp [visitEqualityExpression]
  · simp [visitEqualityExpression]
  · simp [visitEqualityExpression, Value.isNull]

/-- Claim C10: interval membership tests with a Null point return False (not
Null) even with Null (unbounded) bounds, and a non-null point is contained in
a fully unbounded interval. -/
theorem C10_interval_membership_null (lo hi : Option Value) (lc hc : Bool) (x : Value)
    (hx : x ≠ .null) :
    visitMembershipExpression .null (.interval lo hi lc hc) "in" = .ok (.bool false) ∧
    visitMembershipExpression (.interval lo hi lc hc) .null "contains" = .ok (.bool false) ∧
    visitMembershipExpression x (.interval none none lc hc) "in" = .ok (.bool true) ∧
    visitMembershipExpression (.interval none none lc hc) x "contains" = .ok (.bool true) := by
  have hxn : x.isNull = false := by
    cases x <;> simp_all [Value.isNull]
  refine ⟨?_, ?_, ?_, ?_⟩ <;>
    simp [visitMembershipExpression, CQLInterval.containsValue, Value.isNull,
      strToLower, charToLower, hxn]

/-- Witness for C10 at concrete bounds and a non-null (even non-orderable)
point. -/
theorem C10_interval_membership_null_witness :
    visitMembershipExpression .null
      (.interval (some (.int 1)) (some (.int 5)) true true) "in" = .ok (.bool false) ∧
    visitMembershipExpression (.quantity ⟨1, "mg"⟩) (.interval none none true true)
      "in" = .ok (.bool true) := by
  have h := C10_interval_membership_null (some (.int 1)) (some (.int 5)) true true
    (.quantity ⟨1, "mg"⟩) (by simp)
  exact ⟨h.1, h.2.2.1⟩

/-- Claim C2 (code behavior at the claimed inputs): `singleton` returns Null
on `[]`, the element on `[1]`, and raises the cardinality error on `[1,2]`;
but `singletonFrom` on `[1,2]` returns Null instead of raising, because the
dispatch guard compares the lower-cased name against the mixed-case literal
`"singletonFrom"` and can never fire. -/
theorem C2_singletonFrom_dispatch_behavior :
    callBuiltinFunction "singleton" [.list []] = .ok .null ∧
    callBuiltinFunction "singleton" [.list [.int 1]] = .ok (.int 1) ∧
    callBuiltinFunction "singleton" [.list [.int 1, .int 2]] =
      .error "Expected single element but found multiple" ∧
    callBuiltinFunction "singletonFrom" [.list [.int 1, .int 2]] = .ok .null ∧
    strToLower "singletonFrom" ≠ "singletonFrom" :=
  ⟨rfl, rfl, rfl, rfl, by simp [strToLower, charToLower]⟩

/-- Claim C4 (code behavior at the claimed inputs): the `meets` timing
expression evaluates `Interval[1,5] meets Interval[6,10]` to `False` and
`Interval[1,5] meets Interval[5,10]` to `True` — the exact opposite of the
claim, the spec (§8) and the repository's own tests
(tests/test_cql_intervals.py, TestIntervalMeets) — because
`_interval_timing` compares raw endpoint equality; `CQLInterval.meets`
(types.py) also evaluates both claimed inputs to `False` since it demands
equal facing endpoints with opposite closedness. -/
theorem C4_meets_code_behavior :
    intervalTiming ⟨some (.int 1), some (.int 5), true, true⟩
      ⟨some (.int 6), some (.int 10), true, true⟩ "meets" = .ok (.bool false) ∧
    intervalTiming ⟨some (.int 1), some (.int 5), true, true⟩
      ⟨some (.int 5), some (.int 10), true, true⟩ "meets" = .ok (.bool true) ∧
    CQLInterval.meets ⟨some (.int 1), some (.int 5), true, true⟩
      ⟨some (.int 6), some (.int 10), true, true⟩ = false ∧
    CQLInterval.meets ⟨some (.int 1), some (.int 5), true, true⟩
      ⟨some (.int 5), some (.int 10), true, true⟩ = false :=
  ⟨rfl, rfl, rfl, rfl⟩

/-- Claim C7 (code behavior at the claimed inputs): a `return` clause without
a qualifier preserves value-equal duplicate projections (the claim says they
are dropped).  `_apply_return_clause` only deduplicates when the clause text
starts with `"return distinct"` or `"return all"` (with a space) and does
not contain `"all"`; a bare `return` never satisfies this, whichever of the
spaced or ANTLR `getText()` (space-free) renderings is assumed, and even an
explicit `return distinct` under the space-free rendering does not
deduplicate.  `return all` preserves duplicates, as the claim states. -/
theorem C7_return_clause_behavior :
    applyReturnClause [.int 1, .int 1] "return N" = [.int 1, .int 1] ∧
    applyReturnClause [.int 1, .int 1] "returnN" = [.int 1, .int 1] ∧
    applyReturnClause [.int 1, .int 1] "returndistinctN" = [.int 1, .int 1] ∧
    applyReturnClause [.int 1, .int 1, .int 2] "return all N" =
      [.int 1, .int 1, .int 2] ∧
    applyReturnClause [.int 1, .int 1, .int 2] "returnallN" =
      [.int 1, .int 1, .int 2] ∧
    applyReturnClause [.int 1, .int 1] "return distinct N" = [.int 1] :=
  ⟨rfl, rfl, rfl, rfl, rfl, rfl⟩

/-- Claim C3: within one root evaluation call, a named definition's
expression tree is evaluated at most once — the first reference evaluates
and caches the result and every later reference returns the cached value
with no state change; a reference to a name already being evaluated raises
the recursive-definition error (demonstrated both in general and for a
self-referential definition); and the in-progress marker is absent from the
final state on success and error paths alike. -/
theorem C3_definition_memoization (defs : String → Option Expr) :
    (∀ fuel st name v, getCachedDefinition st name = some v →
       evaluateDefinition defs fuel st name = (.ok v, st)) ∧
    (∀ fuel st name, getCachedDefinition st name = none → name ∈ st.inProgress →
       evaluateDefinition defs fuel st name =
         (.error ("Recursive definition detected: " ++ name), st)) ∧
    (∀ fuel st name body v st2, getCachedDefinition st name = none →
       name ∉ st.inProgress → defs name = some body →
       evalExpr defs fuel { st with inProgress := name :: st.inProgress,
                                    evalLog := st.evalLog ++ [name] } body = (.ok v, st2) →
       evaluateDefinition defs fuel st name =
         (.ok v, endEvaluation (cacheDefinition st2 name v) name) ∧
       getCachedDefinition (endEvaluation (cacheDefinition st2 name v) name) name = some v) ∧
    (∀ fuel st name, name ∉ st.inProgress →
       name ∉ (evaluateDefinition defs fuel st name).2.inProgress) ∧
    (∀ fuel st name, getCachedDefinition st name = none → name ∉ st.inProgress →
       defs name = some (.exprRef name) →
       (evaluateDefinition defs (fuel + 1) st name).1 =
         .error ("Recursive definition detected: " ++ name)) ∧
    (∀ fuel e n, ((evalExpr defs fuel EvalState.fresh e).2.evalLog.count n ≤ 1)) := by
  refine ⟨?_, ?_, ?_, ?_, ?_, ?_⟩
  · intro fuel st name v hv
    simp [evaluateDefinition, evalExpr, hv]
  · intro fuel st name hv hip
    simp [evaluateDefinition, evalExpr, hv, startEvaluation, hip]
  · intro fuel st name body v st2 hv hip hd hb
    constructor
    · simp [evaluateDefinition, evalExpr, hv, startEvaluation, hip, hd, hb]
    · rw [show getCachedDefinition (endEvaluation (cacheDefinition st2 name v) name) name =
          getCachedDefinition (cacheDefinition st2 name v) name from rfl,
        getCached_cacheDefinition, if_pos rfl]
  · intro fuel st name hip
    cases hv : getCachedDefinition st name with
    | some v =>
      simpa [evaluateDefinition, evalExpr, hv] using hip
    | none =>
      cases hd : defs name with
      | none =>
        simp only [evaluateDefinition, evalExpr, hv, startEvaluation, hip, if_neg hip, hd]
        exact not_mem_endEvaluation _ name
      | some body =>
        rcases hb : evalExpr defs fuel
            { st with inProgress := name :: st.inProgress,
                      evalLog := st.evalLog ++ [name] } body with ⟨rb, st2⟩
        cases rb with
        | ok v =>
          simp [evaluateDefinition, evalExpr, hv, startEvaluation, hip, hd, hb,
            endEvaluation, List.mem_filter]
        | error msg =>
          simp [evaluateDefinition, evalExpr, hv, startEvaluation, hip, hd, hb,
            endEvaluation, List.mem_filter]
  · intro fuel st name hv hip hd
    have hst1 : getCachedDefinition
        { st with inProgress := name :: st.inProgress,
                  evalLog := st.evalLog ++ [name] } name = none := hv
    simp [evaluateDefinition, evalExpr, hv, startEvaluation, hip, hd, hst1]
  · intro fuel e n
    refine (evalExpr_good defs fuel EvalState.fresh e ?_).1 n
    intro m
    simp [EvalState.fresh, getCachedDefinition]


/-- Witness for C3: a cached `A` is returned without re-evaluation; the
self-referential `B` raises the recursive-definition error and leaves no
in-progress marker behind. -/
theorem C3_definition_memoization_witness :
    evaluateDefinition exampleDefs 5 ⟨[("A", .int 9)], [], []⟩ "A" =
      (.ok (.int 9), ⟨[("A", .int 9)], [], []⟩) ∧
    (evaluateDefinition exampleDefs 5 EvalState.fresh "B").1 =
      .error "Recursive definition detected: B" ∧
    "B" ∉ (evaluateDefinition exampleDefs 5 EvalState.fresh "B").2.inProgress := by
  have h := C3_definition_memoization exampleDefs
  refine ⟨h.1 5 ⟨[("A", .int 9)], [], []⟩ "A" (.int 9) rfl, ?_, ?_⟩
  · have := h.2.2.2.2.1 4 EvalState.fresh "B" rfl (by simp [EvalState.fresh]) rfl
    simpa using this
  · exact h.2.2.2.1 5 EvalState.fresh "B" (by simp [EvalState.fresh])


theorem sortDirectionLe_total (dirRaw : String) (a b : Value) :
    (sortDirectionLe dirRaw a b || sortDirectionLe dirRaw b a) = true := by
  unfold sortDirectionLe
  split
  · exact leDesc_total a b
  · exact leAsc_total a b

theorem sortDirectionLe_trans_on (dirRaw : String) {l : List Value}
    (hcmp : mutuallyComparable l = true) {a b c : Value}
    (ha : a ∈ l) (hb : b ∈ l) (hc : c ∈ l)
    (h1 : sortDirectionLe dirRaw a b = true) (h2 : sortDirectionLe dirRaw b c = true) :
    sortDirectionLe dirRaw a c = true := by
  unfold sortDirectionLe at h1 h2 ⊢
  split at h1 <;> rename_i hsplit
  · rw [if_pos hsplit] at h2
    rw [if_pos hsplit]
    exact leDesc_trans_on hcmp ha hb hc h1 h2
  · rw [if_neg hsplit] at h2
    rw [if_neg hsplit]
    exact leAsc_trans_on hcmp ha hb hc h1 h2


theorem filter_isNull_eq_replicate (results : List Value) :
    results.filter (fun r => r.isNull) =
      List.replicate (results.length - (nonNullOf results).length) Value.null := by
  have hperm : (nonNullOf results ++ results.filter (fun r => r.isNull)).Perm results := by
    have h := List.filter_append_perm (fun r => !r.isNull) results
    have hcongr : results.filter (fun x => !(!x.isNull)) =
        results.filter (fun r => r.isNull) :=
      List.filter_congr (fun a _ => by simp)
    simpa [nonNullOf, hcongr] using h
  have hlen : (nonNullOf results).length + (results.filter (fun r => r.isNull)).length =
      results.length := by
    have := hperm.length_eq
    simpa using this
  have hall : ∀ x ∈ results.filter (fun r => r.isNull), x = Value.null := by
    intro x hx
    have := List.of_mem_filter hx
    exact isNull_eq_iff.mp this
  have hrep := List.eq_replicate_of_mem hall
  rw [hrep]
  congr 1
  omega

/-- Claim C8: a query sort clause consisting of a bare direction stably sorts
the projected list and places every Null element at the end of the result
regardless of direction — the output decomposes as the stable sort
(`pySortList`, a stable insertion sort matching Python's stable `sorted`) of
the non-Null elements followed by exactly the Null elements, is a
permutation of the input, is pairwise ordered for the direction's
comparison, and preserves the relative order of already-ordered
subsequences (stability); if the non-Null elements are not mutually
orderable, the sort step returns the list in its original order instead of
raising an error. -/
theorem C8_bare_direction_sort (results : List Value) (dirRaw : String) :
    (mutuallyComparable (nonNullOf results) = true →
       applySortBareDirection results dirRaw =
         pySortList (sortDirectionLe dirRaw) (nonNullOf results) ++
           List.replicate (results.length - (nonNullOf results).length) Value.null ∧
       (applySortBareDirection results dirRaw).Perm results ∧
       List.Pairwise (fun a b => sortDirectionLe dirRaw a b = true)
         (pySortList (sortDirectionLe dirRaw) (nonNullOf results)) ∧
       (∀ v ∈ pySortList (sortDirectionLe dirRaw) (nonNullOf results), v ≠ .null) ∧
       (∀ c, List.Pairwise (fun a b => sortDirectionLe dirRaw a b = true) c →
          List.Sublist c (nonNullOf results) →
          List.Sublist c (pySortList (sortDirectionLe dirRaw) (nonNullOf results)))) ∧
    (mutuallyComparable (nonNullOf results) = false →
       1 < (nonNullOf results).length →
       applySortBareDirection results dirRaw = results) := by
  constructor
  · intro hcmp
    have heq : applySortBareDirection results dirRaw =
        pySortList (sortDirectionLe dirRaw) (nonNullOf results) ++
          List.replicate (results.length - (nonNullOf results).length) Value.null := by
      simp only [applySortBareDirection, pySorted, nonNullOf, sortDirectionLe] at hcmp ⊢
      simp [hcmp]
    refine ⟨heq, ?_, ?_, ?_, ?_⟩
    · rw [heq]
      have h1 : (pySortList (sortDirectionLe dirRaw) (nonNullOf results)).Perm
          (nonNullOf results) := pySortList_perm _ _
      have h2 := filter_isNull_eq_replicate results
      have h3 : (nonNullOf results ++ results.filter (fun r => r.isNull)).Perm results := by
        have h := List.filter_append_perm (fun r => !r.isNull) results
        have hcongr : results.filter (fun x => !(!x.isNull)) =
            results.filter (fun r => r.isNull) :=
          List.filter_congr (fun a _ => by simp)
        simpa [nonNullOf, hcongr] using h
      exact List.Perm.trans (List.Perm.append h1 (by rw [h2])) h3
    · exact pySortList_pairwise _ _
        (fun a _ b _ => sortDirectionLe_total dirRaw a b)
        (fun a ha b hb c hc h1 h2 => sortDirectionLe_trans_on dirRaw hcmp ha hb hc h1 h2)
    · intro v hv
      have hmem : v ∈ nonNullOf results := (pySortList_perm _ _).mem_iff.mp hv
      have := List.of_mem_filter hmem
      simp only [Bool.not_eq_true'] at this
      intro hcon
      rw [hcon] at this
      simp [Value.isNull] at this
    · intro c hc hsub
      exact pySortList_sublist _ c _ hc hsub
  · intro hcmp hlen
    have h1 : ¬ (nonNullOf results).length ≤ 1 := Nat.not_le.mpr hlen
    simp only [applySortBareDirection, pySorted, nonNullOf] at hcmp h1 ⊢
    simp [hcmp, h1]

/-- Witness for C8: an orderable list with a Null is stably sorted with the
Null at the end; a non-orderable list is returned unchanged. -/
theorem C8_bare_direction_sort_witness :
    applySortBareDirection [.int 2, .null, .int 1] "asc" = [.int 1, .int 2, .null] ∧
    applySortBareDirection [.int 2, .null, .int 1] "desc" = [.int 2, .int 1, .null] ∧
    applySortBareDirection [.str "a", .int 1, .null] "asc" =
      [.str "a", .int 1, .null] := by
  refine ⟨?_, ?_, ?_⟩
  · exact (((C8_bare_direction_sort [.int 2, .null, .int 1] "asc").1 (by rfl)).1).trans
      (by rfl)
  · exact (((C8_bare_direction_sort [.int 2, .null, .int 1] "desc").1 (by rfl)).1).trans
      (by rfl)
  · exact (C8_bare_direction_sort [.str "a", .int 1, .null] "asc").2 (by rfl) (by decide)
